import Mathlib

/-!
Verification of the feedback record store (src/scripts/feedback_system.py).

Records are JSON objects, modelled as insertion-ordered association lists
from string keys to JSON-like values.  The store is the on-disk directory
tree: one partition (directory) per feedback type, each partition an
association list from file stem (the record id) to the parsed record,
in directory-listing order; a freshly created file is appended at the end,
rewriting an existing file replaces the entry in place.
-/

namespace Feedback

/-- JSON-like values, as produced by json.load / written by json.dump. -/
inductive Val where
  | null : Val
  | bool (b : Bool) : Val
  | nat (n : Nat) : Val
  | str (s : String) : Val
  | list (vs : List Val) : Val
  | dict (kvs : List (String × Val)) : Val

/-- Python equality test of a value against a string (`v == s`): true exactly
when `v` is that string; comparing a string with a value of another type is
`False` in Python, never an error. -/
def Val.isStr (v : Val) (s : String) : Bool :=
  match v with
  | .str s' => s' == s
  | _ => false

/-- A parsed JSON object (Python dict with string keys): insertion-ordered
association list with unique keys. -/
abbrev Rec := List (String × Val)

/-- Python dict read `d.get(k)` / JSON object field access: first entry with
the given key. -/
def assocGet {α : Type} (l : List (String × α)) (k : String) : Option α :=
  match l with
  | [] => none
  | (k', v) :: rest => if k' = k then some v else assocGet rest k

/-- Python dict write `d[k] = v` (and file overwrite in a directory):
replace the entry in place if the key is present, else append. -/
def assocSet {α : Type} (l : List (String × α)) (k : String) (v : α) :
    List (String × α) :=
  match l with
  | [] => [(k, v)]
  | (k', v') :: rest =>
      if k' = k then (k, v) :: rest else (k', v') :: assocSet rest k v

/-- The enum of feedback types (class FeedbackType). -/
def feedbackTypes : List String :=
  ["issue", "improvement", "question", "compliance", "other"]

/-- The enum of feedback statuses (class FeedbackStatus). -/
def feedbackStatuses : List String :=
  ["new", "acknowledged", "in_progress", "resolved", "closed", "rejected"]

/-- The enum of feedback priorities (class FeedbackPriority). -/
def feedbackPriorities : List String :=
  ["low", "medium", "high", "critical"]

/-- The backing directory tree: one partition per feedback type, each an
association list from record id (file stem) to parsed record, in
directory-listing order. -/
structure Store where
  issue : List (String × Rec)
  improvement : List (String × Rec)
  question : List (String × Rec)
  compliance : List (String × Rec)
  other : List (String × Rec)

/-- The freshly initialised feedback directory: the five type
subdirectories, all empty. -/
def emptyStore : Store := ⟨[], [], [], [], []⟩

/-- Directory listing of the partition named by a feedback type. -/
def Store.part (s : Store) (t : String) : List (String × Rec) :=
  if t = "issue" then s.issue
  else if t = "improvement" then s.improvement
  else if t = "question" then s.question
  else if t = "compliance" then s.compliance
  else if t = "other" then s.other
  else []

/-- Replace the partition named by a feedback type. -/
def Store.setPart (s : Store) (t : String) (l : List (String × Rec)) : Store :=
  if t = "issue" then { s with issue := l }
  else if t = "improvement" then { s with improvement := l }
  else if t = "question" then { s with question := l }
  else if t = "compliance" then { s with compliance := l }
  else if t = "other" then { s with other := l }
  else s

/-- `open(path, "w"); json.dump(rec)` under partition `t` with file stem
`fid`: overwrite in place or create a new directory entry at the end. -/
def writeFile (s : Store) (t : String) (fid : String) (r : Rec) : Store :=
  s.setPart t (assocSet (s.part t) fid r)

/-! ## The store operations -/

/-- Lines 104-109 of submit_feedback: an invalid feedback type is replaced
by "other" (with a warning), the call never fails. -/
def validatedType (t : String) : String :=
  if t ∈ feedbackTypes then t else "other"

/-- Lines 111-115 of submit_feedback: an invalid priority is replaced by
"medium" (with a warning), the call never fails. -/
def validatedPriority (p : String) : String :=
  if p ∈ feedbackPriorities then p else "medium"

/-- Lines 121-133: the feedback_data dict built by submit_feedback, with
its keys in source order. -/
def mkFeedbackData (freshId t title description p : String) (tags : List String)
    (context : List (String × Val)) (now : String) : Rec :=
  [("id", .str freshId), ("type", .str t), ("title", .str title),
   ("description", .str description), ("priority", .str p),
   ("tags", .list (tags.map .str)), ("context", .dict context),
   ("status", .str "new"), ("created_at", .str now),
   ("updated_at", .str now), ("comments", .list [])]

/-- FeedbackSystem.submit_feedback.  `freshId` stands for the generated
uuid4 string and `now` for datetime.now().isoformat(); both are inputs of
the embedding.  `tags` and `context` are the already-defaulted values
(`tags or []`, `context or {}`).  Persistence succeeds in the model (the
five type directories exist and are writable), so the "" sentinel branch
is not taken. -/
def submit_feedback (s : Store) (feedback_type title description priority : String)
    (tags : List String) (context : List (String × Val))
    (freshId now : String) : String × Store :=
  let t := validatedType feedback_type
  let p := validatedPriority priority
  let data : Rec := mkFeedbackData freshId t title description p tags context now
  (freshId, writeFile s t freshId data)

/-- FeedbackSystem.get_feedback: search the five type directories in their
fixed order for the file named by the id, return the first parsed hit. -/
def get_feedback (s : Store) (feedback_id : String) : Option Rec :=
  feedbackTypes.findSome? (fun t => assocGet (s.part t) feedback_id)

/-- Lines 193-199 of update_feedback: apply every entry of the payload in
order, silently skipping the keys "id" and "created_at". -/
def applyUpdates (r : Rec) (updates : List (String × Val)) : Rec :=
  updates.foldl
    (fun acc kv =>
      if kv.1 = "id" ∨ kv.1 = "created_at" then acc else assocSet acc kv.1 kv.2)
    r

/-- FeedbackSystem.update_feedback.  The updated record is rewritten under
the directory named by its (possibly just updated) "type" value; writing
into a directory that does not exist fails and is caught (returns false).
`none` models the uncaught exception Python raises when the record has no
"type" key or a non-string one (feedback_data["type"] / os.path.join). -/
def update_feedback (s : Store) (feedback_id : String)
    (updates : List (String × Val)) (now : String) : Option (Bool × Store) :=
  match get_feedback s feedback_id with
  | none => some (false, s)
  | some r =>
      let r' := assocSet (applyUpdates r updates) "updated_at" (.str now)
      match assocGet r' "type" with
      | some (.str t) =>
          if t ∈ feedbackTypes then some (true, writeFile s t feedback_id r')
          else some (false, s)
      | _ => none

/-- Lines 285-301 of list_feedback: which directories are scanned.  A falsy
(empty) or invalid type filter falls back to scanning all partitions. -/
def searchDirs (feedback_type : Option String) : List String :=
  match feedback_type with
  | some t =>
      if t = "" then feedbackTypes
      else if t ∈ feedbackTypes then [t]
      else feedbackTypes
  | none => feedbackTypes

/-- Python `tag in v` against the record's "tags" value: membership for
lists (string equality against each element), substring test for strings,
key membership for dicts; `none` models the TypeError raised for the
remaining types. -/
def pyInTags (tag : String) (v : Val) : Option Bool :=
  match v with
  | .list vs => some (vs.any (fun x => x.isStr tag))
  | .str s => some (decide (tag.toList <:+: s.toList))
  | .dict kvs => some (kvs.any (fun kv => kv.1 == tag))
  | _ => none

/-- Line 319: `if status and feedback_data.get("status") != status`.
A falsy (empty) filter string is never applied. -/
def passStatus (flt : Option String) (r : Rec) : Bool :=
  match flt with
  | none => true
  | some f =>
      if f = "" then true
      else match assocGet r "status" with
        | some v => v.isStr f
        | none => false

/-- Line 322: the same test against the "priority" value. -/
def passPriority (flt : Option String) (r : Rec) : Bool :=
  match flt with
  | none => true
  | some f =>
      if f = "" then true
      else match assocGet r "priority" with
        | some v => v.isStr f
        | none => false

/-- Lines 325-328: `if tags: ... all(tag in feedback_tags for tag in tags)`.
A falsy (empty) tag list is never applied.  A TypeError from `in` (tags
value of a non-container type) is caught by the per-file except and skips
the record, which is observationally the same as failing the filter. -/
def passTags (flt : Option (List String)) (r : Rec) : Bool :=
  match flt with
  | none => true
  | some tags =>
      if tags.isEmpty then true
      else
        let ft := (assocGet r "tags").getD (.list [])
        tags.all (fun tag => (pyInTags tag ft).getD false)

/-- Lines 318-328: a record survives all three continue-checks. -/
def passesFilter (status priority : Option String) (tags : Option (List String))
    (r : Rec) : Bool :=
  passStatus status r && passPriority priority r && passTags tags r

/-- Lines 308-336: scan the files of one directory, appending matches until
`len(results) >= limit` breaks the loop. -/
def scanFiles (flt : Rec → Bool) (limit : Nat) (acc : List Rec) :
    List (String × Rec) → List Rec
  | [] => acc
  | e :: rest =>
      if flt e.2 then
        let acc' := acc ++ [e.2]
        if limit ≤ acc'.length then acc' else scanFiles flt limit acc' rest
      else scanFiles flt limit acc rest

/-- Lines 304-340: scan the chosen directories in order, stopping once the
limit has been reached. -/
def scanDirs (s : Store) (flt : Rec → Bool) (limit : Nat) (acc : List Rec) :
    List String → List Rec
  | [] => acc
  | d :: ds =>
      let acc' := scanFiles flt limit acc (s.part d)
      if limit ≤ acc'.length then acc' else scanDirs s flt limit acc' ds

/-- The sort key of line 343, `x.get("created_at", "")`: a string, required
for the comparisons inside `results.sort`; `none` marks a present
non-string value (the comparison would raise TypeError). -/
def sortKey? (r : Rec) : Option String :=
  match assocGet r "created_at" with
  | none => some ""
  | some (.str s) => some s
  | some _ => none

/-- The sort key, defaulting (unreachably under `sortKey?.isSome`) to "". -/
def keyStr (r : Rec) : String := (sortKey? r).getD ""

/-- The ordering of `results.sort(key=..., reverse=True)`: newest
created_at first. -/
def newestFirst (a b : Rec) : Prop := keyStr b ≤ keyStr a

instance : DecidableRel newestFirst := fun _ _ =>
  inferInstanceAs (Decidable (_ ≤ _))

instance : IsTotal Rec newestFirst := ⟨fun _ _ => le_total _ _⟩

instance : IsTrans Rec newestFirst := ⟨fun _ _ _ h1 h2 => le_trans h2 h1⟩

/-- FeedbackSystem.list_feedback.  Returns `none` when the final
`results.sort` raises a TypeError: two or more records were collected and
some collected record carries a non-string "created_at".  (Python can also
sort non-string keys of one homogeneous comparable type; no record written
by this system has such a created_at, and every claim quantifies over
stores with string or absent created_at values, where both sides agree.)
Otherwise: the collected records sorted newest-first and truncated to
`limit`. -/
def list_feedback (s : Store) (feedback_type status priority : Option String)
    (tags : Option (List String)) (limit : Nat) : Option (List Rec) :=
  let collected :=
    scanDirs s (passesFilter status priority tags) limit [] (searchDirs feedback_type)
  if collected.length ≤ 1 || collected.all (fun r => (sortKey? r).isSome) then
    some ((List.insertionSort newestFirst collected).take limit)
  else none

/-- The result shape of get_feedback_stats. -/
structure Stats where
  total : Nat
  by_type : List (String × Nat)
  by_status : List (String × Nat)
  by_priority : List (String × Nat)

/-- `counters[k] += 1` on a counter dict whose key is present. -/
def bump (m : List (String × Nat)) (k : String) : List (String × Nat) :=
  match m with
  | [] => []
  | (k', n) :: rest => if k' = k then (k', n + 1) :: rest else (k', n) :: bump rest k

/-- Lines 398-404: `if value in counters: counters[value] += 1` for a
str-keyed counter dict.  String values are looked up by equality, hashable
non-strings are simply absent, and unhashable values (lists, dicts) make
the membership test raise TypeError, modelled by `none`. -/
def countInto (m : List (String × Nat)) (v : Val) : Option (List (String × Nat)) :=
  match v with
  | .list _ => none
  | .dict _ => none
  | .str k => some (if (assocGet m k).isSome then bump m k else m)
  | _ => some m

/-- Lines 391-404: account one parsed record of partition `t`.  `total` and
the partition's type counter always advance; a TypeError while testing the
status value stops the record's processing (the per-file except), so the
priority is then not counted either. -/
def statOne (t : String) (acc : Stats) (r : Rec) : Stats :=
  let acc1 : Stats := { acc with total := acc.total + 1, by_type := bump acc.by_type t }
  match countInto acc1.by_status ((assocGet r "status").getD (.str "new")) with
  | none => acc1
  | some bs =>
      let acc2 : Stats := { acc1 with by_status := bs }
      match countInto acc2.by_priority ((assocGet r "priority").getD (.str "medium")) with
      | none => acc2
      | some bp => { acc2 with by_priority := bp }

/-- Lines 361-374: the zero counters for every member of each closed set. -/
def initCounters (ks : List String) : List (String × Nat) :=
  ks.map (fun k => (k, 0))

/-- FeedbackSystem.get_feedback_stats. -/
def get_feedback_stats (s : Store) : Stats :=
  feedbackTypes.foldl
    (fun acc t => (s.part t).foldl (fun a e => statOne t a e.2) acc)
    { total := 0, by_type := initCounters feedbackTypes,
      by_status := initCounters feedbackStatuses,
      by_priority := initCounters feedbackPriorities }

/-- The export document shape of lines 427-431. -/
structure ExportDoc where
  exported_at : String
  total : Nat
  feedback : List Rec

/-- FeedbackSystem.export_feedback: a point-in-time snapshot via
`list_feedback(feedback_type, status, limit=1000)`.  `none` models the
exception propagating out of the sort (export's try only covers the file
write); the file write itself succeeds in the model. -/
def export_feedback (s : Store) (feedback_type status : Option String)
    (now : String) : Option ExportDoc :=
  match list_feedback s feedback_type status none none 1000 with
  | none => none
  | some l => some ⟨now, l.length, l⟩

/-- Lines 461-484: one candidate record of an import.  Skipped when the id
or type is missing or falsy, when a record with that id already exists in
any partition, or when the per-record file write fails (a type naming no
existing directory).  (A truthy non-string id or type would be stringified
by Python on the way to the file name; records written by this store always
carry string ids and types, and the claims only quantify over such
stores.) -/
def import_one (s : Store) (n : Nat) (r : Rec) : Nat × Store :=
  match assocGet r "id", assocGet r "type" with
  | some (.str i), some (.str t) =>
      if i = "" || t = "" then (n, s)
      else if (get_feedback s i).isSome then (n, s)
      else if t ∈ feedbackTypes then (n + 1, writeFile s t i r)
      else (n, s)
  | _, _ => (n, s)

/-- FeedbackSystem.import_feedback applied to a document of the export
shape (import reads `import_data.get("feedback", [])`). -/
def import_feedback (s : Store) (doc : ExportDoc) : Nat × Store :=
  doc.feedback.foldl (fun acc r => import_one acc.2 acc.1 r) (0, s)

/-- Lines 525-540 of cleanup_old_feedback: eligibility of one record.
`parse` stands for `datetime.fromisoformat(...).timestamp()` (none =
ValueError).  A missing, falsy or unparsable created_at skips the record
(fail safe); so does a non-string one (TypeError, caught by the per-file
except).  A record old enough must additionally match a truthy status
filter. -/
def cleanupEligible (parse : String → Option Int) (cutoff : Int)
    (status : Option String) (r : Rec) : Bool :=
  match assocGet r "created_at" with
  | some (.str c) =>
      if c = "" then false
      else match parse c with
        | none => false
        | some ts =>
            if cutoff < ts then false
            else match status with
              | none => true
              | some f =>
                  if f = "" then true
                  else match assocGet r "status" with
                    | some v => v.isStr f
                    | none => false
  | _ => false

/-- Lines 515-544: one directory pass of cleanup, removing eligible files
and counting the removals. -/
def cleanupPart (parse : String → Option Int) (cutoff : Int)
    (status : Option String) : List (String × Rec) → Nat × List (String × Rec)
  | [] => (0, [])
  | e :: rest =>
      let acc := cleanupPart parse cutoff status rest
      if cleanupEligible parse cutoff status e.2 then (acc.1 + 1, acc.2)
      else (acc.1, e :: acc.2)

/-- FeedbackSystem.cleanup_old_feedback.  `nowTs` stands for
`datetime.now().timestamp()`; the cutoff is now minus `days` days. -/
def cleanup_old_feedback (parse : String → Option Int) (s : Store) (days : Nat)
    (status : Option String) (nowTs : Int) : Nat × Store :=
  let cutoff : Int := nowTs - (days : Int) * 24 * 60 * 60
  feedbackTypes.foldl
    (fun acc t =>
      let pr := cleanupPart parse cutoff status (acc.2.part t)
      (acc.1 + pr.1, acc.2.setPart t pr.2))
    (0, s)

/-! ## Concrete witness data -/

/-- A concrete well-formed record used by the witnesses. -/
def wRec : Rec :=
  [("id", .str "a1"), ("type", .str "issue"), ("title", .str "t"),
   ("description", .str "d"), ("priority", .str "low"),
   ("tags", .list [.str "x"]), ("context", .dict []),
   ("status", .str "new"), ("created_at", .str "2020-01-01T00:00:00"),
   ("updated_at", .str "2020-01-01T00:00:00"), ("comments", .list [])]

/-- A store holding just `wRec` in the issue partition. -/
def wStore : Store := writeFile emptyStore "issue" "a1" wRec

/-- A payload that tries to overwrite the immutable fields. -/
def wUpdates : List (String × Val) :=
  [("id", .str "zz"), ("created_at", .str "1999"), ("status", .str "resolved")]

/-- The store after applying `wUpdates` to `wRec`. -/
def wStore1 : Store :=
  writeFile wStore "issue" "a1"
    (assocSet (applyUpdates wRec wUpdates) "updated_at"
      (Val.str "2021-01-01T00:00:00"))

/-! ## C6: the list filter -/

/-- The record's tag set: the elements of its "tags" list value, empty when
the key is absent (`feedback_data.get("tags", [])`). -/
def recTags (r : Rec) : List Val :=
  match assocGet r "tags" with
  | some (.list vs) => vs
  | _ => []

/-- A record with status "new", used against the empty-string status
filter. -/
def w6Rec : Rec :=
  [("id", .str "c1"), ("type", .str "issue"), ("status", .str "new"),
   ("created_at", .str "2020-01-01T00:00:00")]

def w6Store : Store := writeFile emptyStore "issue" "c1" w6Rec

/-! ## C2: cleanup eligibility -/

/-- The timestamp parse used by the cleanup counterexample, standing for
datetime.fromisoformat(...).timestamp() on the one ISO string the
counterexample store contains (1577836800 is 2020-01-01T00:00:00 UTC). -/
def parseIsoW (s : String) : Option Int :=
  if s = "2020-01-01T00:00:00" then some 1577836800 else none

/-- A record created at exactly 2020-01-01T00:00:00. -/
def w2Rec : Rec :=
  [("id", .str "e1"), ("type", .str "issue"), ("status", .str "new"),
   ("created_at", .str "2020-01-01T00:00:00")]

def w2Store : Store := writeFile emptyStore "issue" "e1" w2Rec

/-- The strict newest-first ordering used to pin down sort results on
records with pairwise distinct keys. -/
def strictNewest (a b : Rec) : Prop :=
  keyStr b < keyStr a ∨ (keyStr b = keyStr a ∧ a = b)

instance : IsAntisymm Rec strictNewest :=
  ⟨by
    intro a b hab hba
    rcases hab with h1 | ⟨h1, h1'⟩
    · rcases hba with h2 | ⟨h2, h2'⟩
      · exact absurd (h1.trans h2) (lt_irrefl _)
      · exact h2'.symm
    · exact h1'⟩

/-- Three records with increasing creation times for the C7 witness. -/
def w7r1 : Rec := [("id", .str "p1"), ("created_at", .str "2020-01-01T00:00:00")]

def w7r2 : Rec := [("id", .str "p2"), ("created_at", .str "2021-01-01T00:00:00")]

def w7r3 : Rec := [("id", .str "p3"), ("created_at", .str "2022-01-01T00:00:00")]

/-! ## C8: statistics -/

/-- The status value (after the missing-key default "new") is hashable, so
the membership test of line 399 does not raise and the record's priority
is reached. -/
def hashableStatus (r : Rec) : Bool :=
  match (assocGet r "status").getD (.str "new") with
  | .list _ => false
  | .dict _ => false
  | _ => true

/-- All directory entries of the store, partition by partition in the
fixed type order. -/
def allEntries (s : Store) : List (String × Rec) :=
  feedbackTypes.flatMap (fun t => s.part t)

/-- The status counter key a record contributes to: its (defaulted) status
value when that is a string, none otherwise. -/
def statusKey? (r : Rec) : Option String :=
  match (assocGet r "status").getD (.str "new") with
  | .str k => some k
  | _ => none

/-- The priority counter key a record contributes to; an unhashable status
value aborts the record before its priority is examined. -/
def prioKey? (r : Rec) : Option String :=
  if hashableStatus r then
    match (assocGet r "priority").getD (.str "medium") with
    | .str k => some k
    | _ => none
  else none

/-- Folding a guarded counter increment over a list of carriers. -/
def condBumpFold {β : Type} (f : β → Option String) (l : List β)
    (m : List (String × Nat)) : List (String × Nat) :=
  l.foldl
    (fun m e =>
      match f e with
      | some k => if (assocGet m k).isSome then bump m k else m
      | none => m)
    m

/-- The per-partition fold of get_feedback_stats. -/
def partFold (s : Store) (t : String) (a : Stats) : Stats :=
  (s.part t).foldl (fun a e => statOne t a e.2) a

/-- The whole fold of get_feedback_stats over a directory list. -/
def statsFold (s : Store) (dirs : List String) (a : Stats) : Stats :=
  dirs.foldl (fun a t => partFold s t a) a

/-! ## C4: export then import -/

/-- The number of records stored across all partitions. -/
def totalCount (s : Store) : Nat := (allEntries s).length

/-- All records of the store, partition by partition, without their file
stems. -/
def allRecs (s : Store) : List Rec := (allEntries s).map Prod.snd

/-- The id a record presents to import (the falsy default "" when the
field is missing or not a string). -/
def recKey (r : Rec) : String :=
  match assocGet r "id" with
  | some (.str i) => i
  | _ => ""

/-- The directory entry import would create for a record of type `t`. -/
def entryFor (t : String) (r : Rec) : Option (String × Rec) :=
  match assocGet r "id", assocGet r "type" with
  | some (.str i), some (.str t') => if t' = t then some (i, r) else none
  | _, _ => none

/-- A store in the shape the system itself writes: every entry is filed
under its own nonempty id, carries its partition as its "type", has a
string (or absent) created_at, and ids are globally unique. -/
def WellFormedStore (s : Store) : Prop :=
  (∀ t ∈ feedbackTypes, ∀ e ∈ s.part t,
    e.1 ≠ "" ∧ assocGet e.2 "id" = some (Val.str e.1) ∧
    assocGet e.2 "type" = some (Val.str t) ∧ (sortKey? e.2).isSome) ∧
  ((allEntries s).map Prod.fst).Nodup

/-- Two stores hold the identical set of records: partition by partition
the same directory entries up to listing order. -/
def storeEquiv (s1 s2 : Store) : Prop :=
  ∀ t, List.Perm (s1.part t) (s2.part t)

/-! ### C4 counterexample: a store of 1001 records -/

/-- The i-th id of the counterexample store: a nonempty string of length
i + 1, so the 1001 ids are pairwise distinct. -/
def cxId (i : Nat) : String := String.mk ('a' :: List.replicate i 'b')

/-- The i-th record of the counterexample store: a well-formed issue
created at a fixed instant. -/
def cxRec (i : Nat) : Rec :=
  [("id", .str (cxId i)), ("type", .str "issue"),
   ("created_at", .str "2020-01-01T00:00:00")]

/-- 1001 well-formed records in the issue partition: one more than
export's snapshot limit. -/
def cxStore : Store :=
  ⟨(List.range 1001).map (fun i => (cxId i, cxRec i)), [], [], [], []⟩

/-! ## Theorems -/

@[simp] theorem assocGet_nil {α : Type} (k : String) :
    assocGet ([] : List (String × α)) k = none := rfl

theorem assocGet_cons {α : Type} (k' k : String) (v : α) (rest : List (String × α)) :
    assocGet ((k', v) :: rest) k = if k' = k then some v else assocGet rest k := rfl

@[simp] theorem assocGet_assocSet_self {α : Type} (l : List (String × α)) (k : String) (v : α) :
    assocGet (assocSet l k v) k = some v := by
  induction l with
  | nil => simp [assocGet, assocSet]
  | cons hd tl ih =>
      obtain ⟨k', v'⟩ := hd
      by_cases h : k' = k
      · simp [assocGet, assocSet, h]
      · simp [assocGet, assocSet, h, ih]

theorem assocGet_assocSet_ne {α : Type} (l : List (String × α)) (k k' : String) (v : α)
    (h : k ≠ k') : assocGet (assocSet l k v) k' = assocGet l k' := by
  induction l with
  | nil => simp [assocGet, assocSet, h]
  | cons hd tl ih =>
      obtain ⟨k0, v0⟩ := hd
      by_cases h0 : k0 = k
      · subst h0
        simp [assocGet, assocSet, h]
      · simp only [assocSet, if_neg h0, assocGet]
        by_cases h1 : k0 = k'
        · simp [h1]
        · simp [h1, ih]

/-- Writing a fresh key appends the entry at the end of the listing. -/
theorem assocSet_eq_append {α : Type} (l : List (String × α)) (k : String) (v : α)
    (h : assocGet l k = none) : assocSet l k v = l ++ [(k, v)] := by
  induction l with
  | nil => simp [assocSet]
  | cons hd tl ih =>
      obtain ⟨k0, v0⟩ := hd
      by_cases h0 : k0 = k
      · simp [assocGet, h0] at h
      · simp only [assocGet, if_neg h0] at h
        simp [assocSet, h0, ih h]

theorem assocGet_isSome_of_mem {α : Type} {l : List (String × α)} {k : String} {v : α}
    (h : (k, v) ∈ l) : (assocGet l k).isSome := by
  induction l with
  | nil => simp at h
  | cons hd tl ih =>
      obtain ⟨k0, v0⟩ := hd
      rcases List.mem_cons.mp h with h1 | h1
      · cases h1
        simp [assocGet]
      · by_cases h0 : k0 = k
        · simp [assocGet, h0]
        · simpa [assocGet, h0] using ih h1

theorem part_setPart_self (s : Store) (t : String) (l : List (String × Rec))
    (ht : t ∈ feedbackTypes) : (s.setPart t l).part t = l := by
  fin_cases ht <;> rfl

theorem part_setPart_ne (s : Store) (t t' : String) (l : List (String × Rec))
    (ht : t ∈ feedbackTypes) (h : t ≠ t') :
    (s.setPart t l).part t' = s.part t' := by
  fin_cases ht <;> simp [Store.setPart] <;>
    simp only [Store.part] <;> split_ifs <;> simp_all

/-! ## Lemmas about the update loop -/

theorem applyUpdates_cons (r : Rec) (kv : String × Val) (us : List (String × Val)) :
    applyUpdates r (kv :: us) =
      applyUpdates
        (if kv.1 = "id" ∨ kv.1 = "created_at" then r else assocSet r kv.1 kv.2) us := by
  simp [applyUpdates]

theorem applyUpdates_get_id (r : Rec) (us : List (String × Val)) :
    assocGet (applyUpdates r us) "id" = assocGet r "id" := by
  induction us generalizing r with
  | nil => rfl
  | cons kv rest ih =>
      rw [applyUpdates_cons]
      by_cases h : kv.1 = "id" ∨ kv.1 = "created_at"
      · rw [if_pos h, ih]
      · rw [if_neg h, ih, assocGet_assocSet_ne]
        intro hk
        exact h (Or.inl hk)

theorem applyUpdates_get_created_at (r : Rec) (us : List (String × Val)) :
    assocGet (applyUpdates r us) "created_at" = assocGet r "created_at" := by
  induction us generalizing r with
  | nil => rfl
  | cons kv rest ih =>
      rw [applyUpdates_cons]
      by_cases h : kv.1 = "id" ∨ kv.1 = "created_at"
      · rw [if_pos h, ih]
      · rw [if_neg h, ih, assocGet_assocSet_ne]
        intro hk
        exact h (Or.inr hk)

theorem applyUpdates_get_notMem (r : Rec) (us : List (String × Val)) (k : String)
    (h : k ∉ us.map Prod.fst) :
    assocGet (applyUpdates r us) k = assocGet r k := by
  induction us generalizing r with
  | nil => rfl
  | cons kv rest ih =>
      simp only [List.map_cons, List.mem_cons, not_or] at h
      rw [applyUpdates_cons]
      by_cases hs : kv.1 = "id" ∨ kv.1 = "created_at"
      · rw [if_pos hs, ih r h.2]
      · rw [if_neg hs, ih _ h.2, assocGet_assocSet_ne]
        exact fun hk => h.1 hk.symm

theorem applyUpdates_get_mem (r : Rec) (us : List (String × Val)) (k : String) (v : Val)
    (hmem : (k, v) ∈ us) (hid : k ≠ "id") (hca : k ≠ "created_at")
    (hnd : (us.map Prod.fst).Nodup) :
    assocGet (applyUpdates r us) k = some v := by
  induction us generalizing r with
  | nil => simp at hmem
  | cons kv rest ih =>
      simp only [List.map_cons, List.nodup_cons] at hnd
      rw [applyUpdates_cons]
      rcases List.mem_cons.mp hmem with h1 | h1
      · cases h1
        rw [if_neg (by simp [hid, hca])]
        rw [applyUpdates_get_notMem _ _ _ hnd.1]
        exact assocGet_assocSet_self r k v
      · by_cases hs : kv.1 = "id" ∨ kv.1 = "created_at"
        · rw [if_pos hs]
          exact ih _ h1 hnd.2
        · rw [if_neg hs]
          exact ih _ h1 hnd.2

/-! ## C1: update never touches id / created_at, applies the rest,
refreshes updated_at -/

/-- C1: for every stored record and every update payload (with the distinct
keys of a Python dict), a successful update persists a record whose "id"
and "created_at" are those of the stored record even when the payload
carries those keys, whose "updated_at" is the fresh timestamp, in which
every other payload key holds its payload value, and whose remaining fields
are unchanged. -/
theorem update_frame_id_created_at
    (s : Store) (fid : String) (updates : List (String × Val)) (now : String)
    (r : Rec) (s' : Store)
    (hr : get_feedback s fid = some r)
    (hnd : (updates.map Prod.fst).Nodup)
    (h : update_feedback s fid updates now = some (true, s')) :
    ∃ t ∈ feedbackTypes, ∃ r', assocGet (s'.part t) fid = some r' ∧
      assocGet r' "id" = assocGet r "id" ∧
      assocGet r' "created_at" = assocGet r "created_at" ∧
      assocGet r' "updated_at" = some (Val.str now) ∧
      (∀ k v, (k, v) ∈ updates → k ≠ "id" → k ≠ "created_at" → k ≠ "updated_at" →
        assocGet r' k = some v) ∧
      (∀ k, k ∉ updates.map Prod.fst → k ≠ "updated_at" →
        assocGet r' k = assocGet r k) := by
  simp only [update_feedback, hr] at h
  set r' := assocSet (applyUpdates r updates) "updated_at" (Val.str now) with hr'
  rcases hg : assocGet r' "type" with _ | v
  · rw [hg] at h
    simp at h
  · rw [hg] at h
    cases v with
    | str t =>
        simp only at h
        by_cases ht : t ∈ feedbackTypes
        · rw [if_pos ht] at h
          simp only [Option.some.injEq, Prod.mk.injEq] at h
          obtain ⟨-, hs'⟩ := h
          refine ⟨t, ht, r', ?_, ?_, ?_, ?_, ?_, ?_⟩
          · rw [← hs', writeFile, part_setPart_self _ _ _ ht]
            exact assocGet_assocSet_self _ _ _
          · rw [hr', assocGet_assocSet_ne _ _ _ _ (by decide)]
            exact applyUpdates_get_id r updates
          · rw [hr', assocGet_assocSet_ne _ _ _ _ (by decide)]
            exact applyUpdates_get_created_at r updates
          · exact assocGet_assocSet_self _ _ _
          · intro k v hmem hid hca hua
            rw [hr', assocGet_assocSet_ne _ _ _ _ (fun hk => hua hk.symm)]
            exact applyUpdates_get_mem r updates k v hmem hid hca hnd
          · intro k hk hua
            rw [hr', assocGet_assocSet_ne _ _ _ _ (fun hk1 => hua hk1.symm)]
            exact applyUpdates_get_notMem r updates k hk
        · rw [if_neg ht] at h
          simp at h
    | null => simp at h
    | bool b => simp at h
    | nat n => simp at h
    | list vs => simp at h
    | dict kvs => simp at h

/-! ## Lemmas about get_feedback -/

theorem get_feedback_eq_none (s : Store) (fid : String)
    (h : ∀ t ∈ feedbackTypes, assocGet (s.part t) fid = none) :
    get_feedback s fid = none := by
  rw [get_feedback, List.findSome?_eq_none_iff]
  exact h

/-- The partition search of get_feedback returns the hit of the single
partition holding the id. -/
theorem get_feedback_single (s : Store) (fid : String) (t : String) (r : Rec)
    (ht : t ∈ feedbackTypes)
    (hhit : assocGet (s.part t) fid = some r)
    (hother : ∀ t' ∈ feedbackTypes, t' ≠ t → assocGet (s.part t') fid = none) :
    get_feedback s fid = some r := by
  have hv : ∀ t' ∈ feedbackTypes, (fun u => assocGet (s.part u) fid) t' =
      if t' = t then some r else none := by
    intro t' ht'
    by_cases he : t' = t
    · subst he
      simp [hhit]
    · simp [he, hother t' ht' he]
  fin_cases ht <;>
    simp only [get_feedback, feedbackTypes, List.findSome?_cons,
      hv "issue" (by decide), hv "improvement" (by decide),
      hv "question" (by decide), hv "compliance" (by decide),
      hv "other" (by decide)] <;> simp

/-- findSome? over a list holding exactly two hits returns the earlier
one. -/
theorem findSome?_two_hits {β : Type} (l : List String) (f : String → Option β)
    (p q : String) (rp rq : β)
    (hp : p ∈ l) (hne : p ≠ q)
    (hfp : f p = some rp) (hfq : f q = some rq)
    (hother : ∀ t ∈ l, t ≠ p → t ≠ q → f t = none)
    (hlt : l.indexOf p < l.indexOf q) :
    l.findSome? f = some rp := by
  induction l with
  | nil => simp at hp
  | cons a as ih =>
      by_cases hap : a = p
      · subst hap
        rw [List.findSome?_cons, hfp]
      · by_cases haq : a = q
        · subst haq
          rw [List.indexOf_cons_self] at hlt
          exact absurd hlt (Nat.not_lt_zero _)
        · have ha : f a = none :=
            hother a (List.mem_cons_self a as) (fun h => hap h) (fun h => haq h)
          rw [List.findSome?_cons, ha]
          have hp' : p ∈ as := by
            rcases List.mem_cons.mp hp with h | h
            · exact absurd h.symm hap
            · exact h
          refine ih hp' (fun t ht => hother t (List.mem_cons_of_mem _ ht)) ?_
          rw [List.indexOf_cons_ne _ hap, List.indexOf_cons_ne _ haq] at hlt
          exact Nat.succ_lt_succ_iff.mp hlt

/-- get_feedback on a store holding the id in exactly two partitions:
the copy of the partition searched earlier in the fixed order wins. -/
theorem get_feedback_two (s : Store) (fid : String) (p q : String) (rp rq : Rec)
    (hp : p ∈ feedbackTypes) (hne : p ≠ q)
    (hgp : assocGet (s.part p) fid = some rp)
    (hgq : assocGet (s.part q) fid = some rq)
    (hother : ∀ t ∈ feedbackTypes, t ≠ p → t ≠ q → assocGet (s.part t) fid = none)
    (hlt : feedbackTypes.indexOf p < feedbackTypes.indexOf q) :
    get_feedback s fid = some rp :=
  findSome?_two_hits feedbackTypes (fun u => assocGet (s.part u) fid)
    p q rp rq hp hne hgp hgq hother hlt

/-! ## C3: submit coerces invalid enum values and never fails on them -/

theorem validatedType_mem (t : String) : validatedType t ∈ feedbackTypes := by
  rw [validatedType]
  split
  · assumption
  · decide

/-- C3: submit never fails on an enum value: for every input the call
returns the generated id and stores a record whose type is the input type
when valid and "other" otherwise, and whose priority is the input priority
when valid and "medium" otherwise. -/
theorem submit_coerces_invalid_enums (s : Store)
    (feedback_type title description priority : String) (tags : List String)
    (context : List (String × Val)) (freshId now : String) :
    (submit_feedback s feedback_type title description priority tags context
        freshId now).1 = freshId ∧
    ∃ r, assocGet
        ((submit_feedback s feedback_type title description priority tags context
          freshId now).2.part
          (if feedback_type ∈ feedbackTypes then feedback_type else "other"))
        freshId = some r ∧
      assocGet r "type" =
        some (.str (if feedback_type ∈ feedbackTypes then feedback_type else "other")) ∧
      assocGet r "priority" =
        some (.str (if priority ∈ feedbackPriorities then priority else "medium")) := by
  refine ⟨rfl,
    mkFeedbackData freshId (validatedType feedback_type) title description
      (validatedPriority priority) tags context now, ?_, rfl, rfl⟩
  show assocGet ((writeFile s (validatedType feedback_type) freshId _).part
      (validatedType feedback_type)) freshId = some _
  rw [writeFile, part_setPart_self _ _ _ (validatedType_mem _)]
  exact assocGet_assocSet_self _ _ _

/-! ## C9: update on a nonexistent id fails and writes nothing -/

/-- C9: when the id is present in no partition, update returns failure and
the store is returned unchanged. -/
theorem update_missing_id_no_write (s : Store) (fid : String)
    (updates : List (String × Val)) (now : String)
    (h : ∀ t ∈ feedbackTypes, assocGet (s.part t) fid = none) :
    update_feedback s fid updates now = some (false, s) := by
  rw [update_feedback, get_feedback_eq_none s fid h]

/-! ## C5: submit then get returns exactly the submitted data -/

/-- C5: for a valid type and priority and a fresh id, get after submit
returns a record carrying exactly the submitted title, description, tags
and context, with status "new" and no comments. -/
theorem submit_get_roundtrip (s : Store)
    (feedback_type title description priority : String) (tags : List String)
    (context : List (String × Val)) (freshId now : String)
    (hty : feedback_type ∈ feedbackTypes)
    (hpr : priority ∈ feedbackPriorities)
    (hfresh : ∀ t ∈ feedbackTypes, assocGet (s.part t) freshId = none) :
    ∃ r, get_feedback
        (submit_feedback s feedback_type title description priority tags context
          freshId now).2 freshId = some r ∧
      assocGet r "title" = some (.str title) ∧
      assocGet r "description" = some (.str description) ∧
      assocGet r "tags" = some (.list (tags.map .str)) ∧
      assocGet r "context" = some (.dict context) ∧
      assocGet r "status" = some (.str "new") ∧
      assocGet r "comments" = some (.list []) := by
  have htv : validatedType feedback_type = feedback_type := if_pos hty
  refine ⟨mkFeedbackData freshId (validatedType feedback_type) title description
      (validatedPriority priority) tags context now, ?_, rfl, rfl, rfl, rfl, rfl, rfl⟩
  refine get_feedback_single _ freshId feedback_type _ hty ?_ ?_
  · show assocGet ((writeFile s (validatedType feedback_type) freshId _).part
        feedback_type) freshId = some _
    rw [writeFile, htv, part_setPart_self _ _ _ hty]
    exact assocGet_assocSet_self _ _ _
  · intro t' ht' hne
    show assocGet ((writeFile s (validatedType feedback_type) freshId _).part t')
        freshId = none
    rw [writeFile, htv, part_setPart_ne _ _ _ _ hty (fun h => hne h.symm)]
    exact hfresh t' ht'

/-! ## C10: updating the type leaves a stale copy in the old partition -/

/-- C10: an update that changes the record's type to another valid type
writes the updated record under the new type's partition while the old
file stays in place; afterwards both copies exist under the same id and
get returns the copy of whichever partition comes first in the fixed
search order — possibly the stale pre-update one. -/
theorem update_type_change_creates_duplicate
    (s : Store) (fid : String) (p q : String) (r : Rec) (now : String)
    (hp : p ∈ feedbackTypes) (hq : q ∈ feedbackTypes) (hne : q ≠ p)
    (hstored : assocGet (s.part p) fid = some r)
    (htype : assocGet r "type" = some (Val.str p))
    (honly : ∀ t ∈ feedbackTypes, t ≠ p → assocGet (s.part t) fid = none) :
    ∃ s' r', update_feedback s fid [("type", Val.str q)] now = some (true, s') ∧
      assocGet (s'.part q) fid = some r' ∧
      assocGet r' "type" = some (Val.str q) ∧
      assocGet r' "updated_at" = some (Val.str now) ∧
      assocGet (s'.part p) fid = some r ∧
      (feedbackTypes.indexOf p < feedbackTypes.indexOf q →
        get_feedback s' fid = some r) ∧
      (feedbackTypes.indexOf q < feedbackTypes.indexOf p →
        get_feedback s' fid = some r') := by
  have hget : get_feedback s fid = some r :=
    get_feedback_single s fid p r hp hstored honly
  have happ : applyUpdates r [("type", Val.str q)] = assocSet r "type" (Val.str q) := rfl
  set r' : Rec :=
    assocSet (assocSet r "type" (Val.str q)) "updated_at" (Val.str now) with hr'
  have hty' : assocGet r' "type" = some (Val.str q) := by
    rw [hr', assocGet_assocSet_ne _ _ _ _ (by decide)]
    exact assocGet_assocSet_self _ _ _
  have hua' : assocGet r' "updated_at" = some (Val.str now) :=
    assocGet_assocSet_self _ _ _
  have hstep : update_feedback s fid [("type", Val.str q)] now =
      some (true, writeFile s q fid r') := by
    rw [update_feedback, hget]
    simp only [happ, ← hr', hty', hq, if_true]
  refine ⟨writeFile s q fid r', r', hstep, ?_, hty', hua', ?_, ?_, ?_⟩
  · rw [writeFile, part_setPart_self _ _ _ hq]
    exact assocGet_assocSet_self _ _ _
  · rw [writeFile, part_setPart_ne _ _ _ _ hq hne]
    exact hstored
  · intro hlt
    refine get_feedback_two _ fid p q r r' hp (fun h => hne h.symm) ?_ ?_ ?_ hlt
    · rw [writeFile, part_setPart_ne _ _ _ _ hq hne]
      exact hstored
    · rw [writeFile, part_setPart_self _ _ _ hq]
      exact assocGet_assocSet_self _ _ _
    · intro t ht htp htq
      rw [writeFile, part_setPart_ne _ _ _ _ hq (fun h => htq h.symm)]
      exact honly t ht htp
  · intro hlt
    refine get_feedback_two _ fid q p r' r hq hne ?_ ?_ ?_ hlt
    · rw [writeFile, part_setPart_self _ _ _ hq]
      exact assocGet_assocSet_self _ _ _
    · rw [writeFile, part_setPart_ne _ _ _ _ hq hne]
      exact hstored
    · intro t ht htq htp
      rw [writeFile, part_setPart_ne _ _ _ _ hq (fun h => htq h.symm)]
      exact honly t ht htp

theorem update_frame_id_created_at_witness :
    get_feedback wStore "a1" = some wRec ∧
    (wUpdates.map Prod.fst).Nodup ∧
    update_feedback wStore "a1" wUpdates "2021-01-01T00:00:00" =
      some (true, wStore1) ∧
    (∃ t ∈ feedbackTypes, ∃ r', assocGet (wStore1.part t) "a1" = some r' ∧
      assocGet r' "id" = assocGet wRec "id" ∧
      assocGet r' "created_at" = assocGet wRec "created_at" ∧
      assocGet r' "updated_at" = some (Val.str "2021-01-01T00:00:00") ∧
      (∀ k v, (k, v) ∈ wUpdates → k ≠ "id" → k ≠ "created_at" → k ≠ "updated_at" →
        assocGet r' k = some v) ∧
      (∀ k, k ∉ wUpdates.map Prod.fst → k ≠ "updated_at" →
        assocGet r' k = assocGet wRec k)) :=
  ⟨rfl, by decide, rfl,
   update_frame_id_created_at wStore "a1" wUpdates "2021-01-01T00:00:00" wRec
     wStore1 rfl (by decide) rfl⟩

theorem submit_get_roundtrip_witness :
    ("issue" ∈ feedbackTypes) ∧ ("low" ∈ feedbackPriorities) ∧
    (∀ t ∈ feedbackTypes, assocGet (emptyStore.part t) "b1" = none) ∧
    (∃ r, get_feedback
        (submit_feedback emptyStore "issue" "T" "D" "low" ["x"] [] "b1"
          "2020-05-05T00:00:00").2 "b1" = some r ∧
      assocGet r "title" = some (.str "T") ∧
      assocGet r "description" = some (.str "D") ∧
      assocGet r "tags" = some (.list (["x"].map .str)) ∧
      assocGet r "context" = some (.dict []) ∧
      assocGet r "status" = some (.str "new") ∧
      assocGet r "comments" = some (.list [])) :=
  ⟨by decide, by decide, by intro t ht; fin_cases ht <;> rfl,
   submit_get_roundtrip emptyStore "issue" "T" "D" "low" ["x"] [] "b1"
     "2020-05-05T00:00:00" (by decide) (by decide)
     (by intro t ht; fin_cases ht <;> rfl)⟩

theorem update_missing_id_no_write_witness :
    (∀ t ∈ feedbackTypes, assocGet (wStore.part t) "zz" = none) ∧
    update_feedback wStore "zz" [("status", Val.str "resolved")] "2021" =
      some (false, wStore) :=
  ⟨by intro t ht; fin_cases ht <;> rfl,
   update_missing_id_no_write wStore "zz" [("status", Val.str "resolved")] "2021"
     (by intro t ht; fin_cases ht <;> rfl)⟩

theorem update_type_change_creates_duplicate_witness :
    ("issue" ∈ feedbackTypes) ∧ ("other" ∈ feedbackTypes) ∧
    (("other" : String) ≠ "issue") ∧
    assocGet (wStore.part "issue") "a1" = some wRec ∧
    assocGet wRec "type" = some (Val.str "issue") ∧
    (∀ t ∈ feedbackTypes, t ≠ "issue" → assocGet (wStore.part t) "a1" = none) ∧
    (∃ s' r', update_feedback wStore "a1" [("type", Val.str "other")] "2022" =
        some (true, s') ∧
      assocGet (s'.part "other") "a1" = some r' ∧
      assocGet r' "type" = some (Val.str "other") ∧
      assocGet r' "updated_at" = some (Val.str "2022") ∧
      assocGet (s'.part "issue") "a1" = some wRec ∧
      (feedbackTypes.indexOf "issue" < feedbackTypes.indexOf "other" →
        get_feedback s' "a1" = some wRec) ∧
      (feedbackTypes.indexOf "other" < feedbackTypes.indexOf "issue" →
        get_feedback s' "a1" = some r')) :=
  ⟨by decide, by decide, by decide, rfl, rfl,
   by intro t ht h; fin_cases ht <;> first | exact absurd rfl h | rfl,
   update_type_change_creates_duplicate wStore "a1" "issue" "other" wRec "2022"
     (by decide) (by decide) (by decide) rfl rfl
     (by intro t ht h; fin_cases ht <;> first | exact absurd rfl h | rfl)⟩

/-- C6 counterexample: with the status filter present but equal to the
empty string, a record whose status is "new" (hence unequal to the filter)
is nevertheless included in the results of list — the code treats a falsy
filter as absent, refuting the stated iff. -/
theorem list_filter_iff_counterexample :
    list_feedback w6Store none (some "") none none 100 = some [w6Rec] ∧
    assocGet w6Rec "status" = some (Val.str "new") ∧ ("new" : String) ≠ "" :=
  ⟨rfl, rfl, by decide⟩

theorem isStr_iff (v : Val) (f : String) : v.isStr f = true ↔ v = Val.str f := by
  cases v <;> simp [Val.isStr]

theorem any_isStr_iff (vs : List Val) (tag : String) :
    (vs.any (fun x => x.isStr tag)) = true ↔ Val.str tag ∈ vs := by
  rw [List.any_eq_true]
  constructor
  · rintro ⟨x, hx, hs⟩
    rw [(isStr_iff x tag).mp hs] at hx
    exact hx
  · intro h
    exact ⟨Val.str tag, h, (isStr_iff _ tag).mpr rfl⟩

theorem passStatus_iff (st : Option String) (r : Rec) :
    passStatus st r = true ↔
      (∀ f, st = some f → f ≠ "" → assocGet r "status" = some (Val.str f)) := by
  cases st with
  | none => simp [passStatus]
  | some f =>
      by_cases hf : f = ""
      · subst hf
        simp [passStatus]
      · rw [passStatus]
        rw [if_neg hf]
        cases hg : assocGet r "status" with
        | none => simp [hf, hg]
        | some v => simp [hf, hg, isStr_iff]

theorem passPriority_iff (pr : Option String) (r : Rec) :
    passPriority pr r = true ↔
      (∀ f, pr = some f → f ≠ "" → assocGet r "priority" = some (Val.str f)) := by
  cases pr with
  | none => simp [passPriority]
  | some f =>
      by_cases hf : f = ""
      · subst hf
        simp [passPriority]
      · rw [passPriority]
        rw [if_neg hf]
        cases hg : assocGet r "priority" with
        | none => simp [hf, hg]
        | some v => simp [hf, hg, isStr_iff]

theorem passTags_iff (tg : Option (List String)) (r : Rec)
    (htags : assocGet r "tags" = none ∨ ∃ vs, assocGet r "tags" = some (Val.list vs)) :
    passTags tg r = true ↔
      (∀ ts, tg = some ts → ∀ tag ∈ ts, Val.str tag ∈ recTags r) := by
  cases tg with
  | none => simp [passTags]
  | some ts =>
      rw [passTags]
      by_cases hts : ts.isEmpty
      · rw [if_pos hts]
        rw [List.isEmpty_iff] at hts
        subst hts
        simp
      · rw [if_neg hts]
        have hft : (assocGet r "tags").getD (Val.list []) = Val.list (recTags r) := by
          rcases htags with h | ⟨vs, h⟩ <;> simp [h, recTags]
        rw [hft]
        simp only [pyInTags, Option.getD_some, List.all_eq_true, any_isStr_iff]
        constructor
        · intro h ts' hts' tag htag
          cases hts'
          exact h tag htag
        · intro h tag htag
          exact h ts rfl tag htag

/-- C6 amended: a record passes the scan filter iff every present and
nonempty status/priority filter equals the record's corresponding field
and every tag requested by a present tags filter lies in the record's tag
set (a falsy — empty — filter value is treated as absent).  Stated for
records whose "tags" value, if any, is a list. -/
theorem passesFilter_iff (st pr : Option String) (tg : Option (List String)) (r : Rec)
    (htags : assocGet r "tags" = none ∨ ∃ vs, assocGet r "tags" = some (Val.list vs)) :
    passesFilter st pr tg r = true ↔
      ((∀ f, st = some f → f ≠ "" → assocGet r "status" = some (Val.str f)) ∧
       (∀ f, pr = some f → f ≠ "" → assocGet r "priority" = some (Val.str f)) ∧
       (∀ ts, tg = some ts → ∀ tag ∈ ts, Val.str tag ∈ recTags r)) := by
  rw [passesFilter, Bool.and_eq_true, Bool.and_eq_true,
    passStatus_iff, passPriority_iff, passTags_iff tg r htags]
  tauto

theorem passesFilter_iff_witness :
    (assocGet wRec "tags" = none ∨
      ∃ vs, assocGet wRec "tags" = some (Val.list vs)) ∧
    (passesFilter (some "new") none (some ["x"]) wRec = true ↔
      ((∀ f, (some "new" : Option String) = some f → f ≠ "" →
          assocGet wRec "status" = some (Val.str f)) ∧
       (∀ f, (none : Option String) = some f → f ≠ "" →
          assocGet wRec "priority" = some (Val.str f)) ∧
       (∀ ts, (some ["x"] : Option (List String)) = some ts →
          ∀ tag ∈ ts, Val.str tag ∈ recTags wRec))) :=
  ⟨Or.inr ⟨[.str "x"], rfl⟩,
   passesFilter_iff (some "new") none (some ["x"]) wRec (Or.inr ⟨[.str "x"], rfl⟩)⟩

/-- C2 counterexample, two runs against the stated claim.  Run 1: a record
whose created_at parses to exactly the cutoff instant (now − days, so not
strictly older than it) is removed.  Run 2: with the status filter present
but equal to the empty string, a record whose status "new" differs from
the filter is removed anyway (and it is strictly older than the cutoff).
In both runs the claim as stated says the record must survive, yet cleanup
removes it and reports one removal. -/
theorem cleanup_strictness_counterexample :
    cleanup_old_feedback parseIsoW w2Store 1 none (1577836800 + 86400) =
      (1, emptyStore) ∧
    parseIsoW "2020-01-01T00:00:00" =
      some ((1577836800 + 86400 : Int) - 1 * 24 * 60 * 60) ∧
    cleanup_old_feedback parseIsoW w2Store 2 (some "") (1577836800 + 2 * 86400 + 50) =
      (1, emptyStore) ∧
    ((1577836800 : Int) < (1577836800 + 2 * 86400 + 50 : Int) - 2 * 24 * 60 * 60) ∧
    assocGet w2Rec "status" = some (Val.str "new") ∧ ("new" : String) ≠ "" := by
  refine ⟨?_, by decide, ?_, by decide, rfl, by decide⟩ <;> rfl

theorem cleanupPart_spec (parse : String → Option Int) (cutoff : Int)
    (status : Option String) (l : List (String × Rec)) :
    cleanupPart parse cutoff status l =
      (l.countP (fun e => cleanupEligible parse cutoff status e.2),
       l.filter (fun e => !cleanupEligible parse cutoff status e.2)) := by
  induction l with
  | nil => rfl
  | cons e rest ih =>
      rw [cleanupPart, ih]
      by_cases he : cleanupEligible parse cutoff status e.2
      · simp [he, List.countP_cons, List.filter_cons]
      · simp [he, List.countP_cons, List.filter_cons]

theorem cleanupEligible_iff (parse : String → Option Int) (cutoff : Int)
    (status : Option String) (r : Rec) :
    cleanupEligible parse cutoff status r = true ↔
      ∃ c ts, assocGet r "created_at" = some (Val.str c) ∧ c ≠ "" ∧
        parse c = some ts ∧ ts ≤ cutoff ∧
        (∀ f, status = some f → f ≠ "" → assocGet r "status" = some (Val.str f)) := by
  unfold cleanupEligible
  cases hc : assocGet r "created_at" with
  | none => simp [hc]
  | some v =>
      cases v with
      | str c =>
          simp only
          by_cases hce : c = ""
          · subst hce
            simp
          · rw [if_neg hce]
            cases hp : parse c with
            | none =>
                refine iff_of_false (fun h => Bool.noConfusion h) ?_
                rintro ⟨c', ts', hc', -, hp', -⟩
                rw [Option.some.injEq, Val.str.injEq] at hc'
                subst hc'
                rw [hp] at hp'
                exact Option.noConfusion hp'
            | some ts =>
                simp only
                by_cases hts : cutoff < ts
                · rw [if_pos hts]
                  refine iff_of_false (fun h => Bool.noConfusion h) ?_
                  rintro ⟨c', ts', hc', -, hp', hle, -⟩
                  rw [Option.some.injEq, Val.str.injEq] at hc'
                  subst hc'
                  rw [hp] at hp'
                  cases hp'
                  exact absurd hle (not_le.mpr hts)
                · rw [if_neg hts]
                  cases status with
                  | none =>
                      exact iff_of_true rfl
                        ⟨c, ts, rfl, hce, hp, not_lt.mp hts, by simp⟩
                  | some f =>
                      simp only
                      by_cases hf : f = ""
                      · subst hf
                        rw [if_pos rfl]
                        exact iff_of_true rfl
                          ⟨c, ts, rfl, hce, hp, not_lt.mp hts,
                           fun f' hf' hne => absurd (Option.some.inj hf').symm hne⟩
                      · rw [if_neg hf]
                        cases hs : assocGet r "status" with
                        | none =>
                            refine iff_of_false (fun h => Bool.noConfusion h) ?_
                            rintro ⟨c', ts', -, -, -, -, hst⟩
                            exact Option.noConfusion (hst f rfl hf)
                        | some v =>
                            simp only
                            rw [isStr_iff]
                            constructor
                            · intro hv
                              exact ⟨c, ts, rfl, hce, hp, not_lt.mp hts,
                                fun f' hf' hne => by
                                  cases hf'
                                  rw [hv]⟩
                            · rintro ⟨c', ts', -, -, -, -, hst⟩
                              exact Option.some.inj (hst f rfl hf)
      | null => simp [hc]
      | bool b => simp [hc]
      | nat n => simp [hc]
      | list vs => simp [hc]
      | dict kvs => simp [hc]

/-- C2 amended: cleanup removes a record iff its created_at is a nonempty
string that parses to an instant at or before the cutoff now − days (not
strictly before: equality is removed too), and, when a nonempty status
filter is given, its status equals the filter; records with a missing or
unparsable created_at always survive, and the returned count is the number
of removed records. -/
theorem cleanup_removes_iff (parse : String → Option Int) (s : Store) (days : Nat)
    (status : Option String) (nowTs : Int) :
    (∀ t ∈ feedbackTypes,
      (cleanup_old_feedback parse s days status nowTs).2.part t =
        (s.part t).filter
          (fun e => !cleanupEligible parse (nowTs - (days : Int) * 24 * 60 * 60)
            status e.2)) ∧
    (cleanup_old_feedback parse s days status nowTs).1 =
      (feedbackTypes.map (fun t => (s.part t).countP
        (fun e => cleanupEligible parse (nowTs - (days : Int) * 24 * 60 * 60)
          status e.2))).sum ∧
    (∀ r, cleanupEligible parse (nowTs - (days : Int) * 24 * 60 * 60) status r = true ↔
      ∃ c ts, assocGet r "created_at" = some (Val.str c) ∧ c ≠ "" ∧
        parse c = some ts ∧ ts ≤ nowTs - (days : Int) * 24 * 60 * 60 ∧
        (∀ f, status = some f → f ≠ "" → assocGet r "status" = some (Val.str f))) := by
  refine ⟨?_, ?_, fun r => cleanupEligible_iff parse _ status r⟩
  · intro t ht
    fin_cases ht <;>
      simp [cleanup_old_feedback, feedbackTypes, Store.part, Store.setPart,
        cleanupPart_spec]
  · simp [cleanup_old_feedback, feedbackTypes, Store.part, Store.setPart,
      cleanupPart_spec]
    omega

/-! ## Scan characterisation and C7: newest-first ordering -/

/-- With a positive limit, the file loop of one directory collects the
matching records in listing order, truncated to the remaining budget. -/
theorem scanFiles_eq (flt : Rec → Bool) (limit : Nat) (acc : List Rec)
    (l : List (String × Rec)) (hl : 1 ≤ limit) (hacc : acc.length < limit) :
    scanFiles flt limit acc l =
      acc ++ ((l.map Prod.snd).filter flt).take (limit - acc.length) := by
  induction l generalizing acc with
  | nil => simp [scanFiles]
  | cons e rest ih =>
      rw [scanFiles]
      by_cases hf : flt e.2
      · simp only [hf, if_true, List.map_cons, List.filter_cons, List.length_append,
          List.length_cons, List.length_nil]
        have h1 : limit - acc.length = (limit - acc.length - 1) + 1 := by omega
        by_cases hstop : limit ≤ acc.length + 1
        · rw [if_pos (by simpa using hstop)]
          have h2 : limit - acc.length = 1 := by omega
          rw [h2, List.take_succ_cons, List.take_zero]
        · rw [if_neg (by simpa using hstop)]
          rw [ih (acc ++ [e.2]) (by simpa using by omega)]
          rw [h1, List.take_succ_cons]
          simp [List.length_append]
          omega
      · simp only [hf, if_false, List.map_cons, List.filter_cons]
        rw [ih acc hacc]
        simp [hf]

/-- With a positive limit, the directory loop collects the matching records
of the scanned directories in order, truncated to the remaining budget. -/
theorem scanDirs_eq (s : Store) (flt : Rec → Bool) (limit : Nat) (acc : List Rec)
    (dirs : List String) (hl : 1 ≤ limit) (hacc : acc.length < limit) :
    scanDirs s flt limit acc dirs =
      acc ++ (dirs.flatMap (fun d => ((s.part d).map Prod.snd).filter flt)).take
        (limit - acc.length) := by
  induction dirs generalizing acc with
  | nil => simp [scanDirs]
  | cons d ds ih =>
      rw [scanDirs]
      set F := ((s.part d).map Prod.snd).filter flt with hF
      rw [scanFiles_eq flt limit acc (s.part d) hl hacc, ← hF]
      simp only [List.flatMap_cons, ← hF]
      rw [List.take_append_eq_append_take]
      by_cases hstop : limit ≤ (acc ++ F.take (limit - acc.length)).length
      · rw [if_pos hstop]
        simp only [List.length_append, List.length_take] at hstop
        have h2 : limit - acc.length - F.length = 0 := by omega
        rw [h2, List.take_zero, List.append_nil]
      · rw [if_neg hstop]
        simp only [List.length_append, List.length_take] at hstop
        have hFlen : F.length < limit - acc.length := by omega
        rw [ih _ (by simp only [List.length_append, List.length_take]; omega)]
        rw [List.take_of_length_le (le_of_lt hFlen)]
        simp only [List.length_append, List.append_assoc]
        have h5 : limit - (acc.length + F.length) =
            limit - acc.length - F.length := by omega
        rw [h5]

/-- With no filters every record passes. -/
theorem passesFilter_none (r : Rec) : passesFilter none none none r = true := rfl

/-- C7: every sequence returned by list is sorted by the created_at key in
descending (newest first) order; in particular a store holding three
records created at times t1 < t2 < t3 lists them as the sequence
r3, r2, r1 whenever no filter is given and the limit is at least 3. -/
theorem list_newest_first :
    (∀ (s : Store) (ft st pr : Option String) (tg : Option (List String))
      (limit : Nat) (l : List Rec),
      list_feedback s ft st pr tg limit = some l → l.Sorted newestFirst) ∧
    (∀ (i1 i2 i3 : String) (r1 r2 r3 : Rec) (t1 t2 t3 : String) (limit : Nat),
      sortKey? r1 = some t1 → sortKey? r2 = some t2 → sortKey? r3 = some t3 →
      t1 < t2 → t2 < t3 → 3 ≤ limit →
      list_feedback ⟨[(i1, r1), (i2, r2), (i3, r3)], [], [], [], []⟩
        none none none none limit = some [r3, r2, r1]) := by
  constructor
  · intro s ft st pr tg limit l h
    rw [list_feedback] at h
    split at h
    · rw [Option.some.injEq] at h
      subst h
      exact (List.sorted_insertionSort newestFirst _).sublist
        (List.take_sublist _ _)
    · exact Option.noConfusion h
  · intro i1 i2 i3 r1 r2 r3 t1 t2 t3 limit hk1 hk2 hk3 h12 h23 hlim
    have hkey1 : keyStr r1 = t1 := by rw [keyStr, hk1]; rfl
    have hkey2 : keyStr r2 = t2 := by rw [keyStr, hk2]; rfl
    have hkey3 : keyStr r3 = t3 := by rw [keyStr, hk3]; rfl
    have hscan : scanDirs ⟨[(i1, r1), (i2, r2), (i3, r3)], [], [], [], []⟩
        (passesFilter none none none) limit [] (searchDirs none) = [r1, r2, r3] := by
      rw [searchDirs, scanDirs_eq _ _ limit [] feedbackTypes (by omega) (by simp; omega)]
      show [] ++ (List.take (limit - 0) _) = _
      simp only [feedbackTypes, List.flatMap_cons, List.flatMap_nil, Store.part]
      simp only [List.map_cons, List.map_nil, List.filter_cons, List.filter_nil,
        passesFilter_none, List.append_nil, List.nil_append]
      show List.take (limit - 0) ([r1, r2, r3] ++ ([] ++ ([] ++ ([] ++ [])))) = _
      simp only [List.append_nil]
      exact List.take_of_length_le (by simp; omega)
    rw [list_feedback, hscan]
    rw [if_pos (by simp [hk1, hk2, hk3])]
    have hperm : List.Perm (List.insertionSort newestFirst [r1, r2, r3])
        [r3, r2, r1] :=
      (List.perm_insertionSort newestFirst [r1, r2, r3]).trans
        (List.reverse_perm [r1, r2, r3]).symm
    have hne12 : keyStr r1 ≠ keyStr r2 := by rw [hkey1, hkey2]; exact ne_of_lt h12
    have hne13 : keyStr r1 ≠ keyStr r3 := by
      rw [hkey1, hkey3]; exact ne_of_lt (h12.trans h23)
    have hne23 : keyStr r2 ≠ keyStr r3 := by rw [hkey2, hkey3]; exact ne_of_lt h23
    have hpairne0 : List.Pairwise (fun a b : Rec => keyStr a ≠ keyStr b)
        [r3, r2, r1] := by
      refine List.Pairwise.cons ?_ (List.Pairwise.cons ?_ (List.pairwise_singleton _ _))
      · intro b hb
        rcases List.mem_cons.mp hb with rfl | hb
        · exact hne23.symm
        · rcases List.mem_singleton.mp hb with rfl
          exact hne13.symm
      · intro b hb
        rcases List.mem_singleton.mp hb with rfl
        exact hne12.symm
    have hpairne : List.Pairwise (fun a b : Rec => keyStr a ≠ keyStr b)
        (List.insertionSort newestFirst [r1, r2, r3]) :=
      (hperm.pairwise_iff (fun h => Ne.symm h)).mpr hpairne0
    have hsorted : List.Sorted strictNewest
        (List.insertionSort newestFirst [r1, r2, r3]) := by
      refine ((List.sorted_insertionSort newestFirst [r1, r2, r3]).and hpairne).imp ?_
      rintro a b ⟨hle, hne⟩
      exact Or.inl (lt_of_le_of_ne hle (fun h => hne h.symm))
    have htarget : List.Sorted strictNewest [r3, r2, r1] := by
      refine List.Pairwise.cons ?_ (List.Pairwise.cons ?_ (List.pairwise_singleton _ _))
      · intro b hb
        rcases List.mem_cons.mp hb with rfl | hb
        · exact Or.inl (by rw [hkey2, hkey3]; exact h23)
        · rcases List.mem_singleton.mp hb with rfl
          exact Or.inl (by rw [hkey1, hkey3]; exact h12.trans h23)
      · intro b hb
        rcases List.mem_singleton.mp hb with rfl
        exact Or.inl (by rw [hkey1, hkey2]; exact h12)
    have heq : List.insertionSort newestFirst [r1, r2, r3] = [r3, r2, r1] :=
      List.eq_of_perm_of_sorted hperm hsorted htarget
    rw [heq]
    rw [List.take_of_length_le (by simp; omega)]

theorem list_newest_first_witness :
    (list_feedback wStore none none none none 100 = some [wRec]) ∧
    List.Sorted newestFirst [wRec] ∧
    sortKey? w7r1 = some "2020-01-01T00:00:00" ∧
    sortKey? w7r2 = some "2021-01-01T00:00:00" ∧
    sortKey? w7r3 = some "2022-01-01T00:00:00" ∧
    ("2020-01-01T00:00:00" : String) < "2021-01-01T00:00:00" ∧
    ("2021-01-01T00:00:00" : String) < "2022-01-01T00:00:00" ∧
    3 ≤ 100 ∧
    list_feedback ⟨[("p1", w7r1), ("p2", w7r2), ("p3", w7r3)], [], [], [], []⟩
      none none none none 100 = some [w7r3, w7r2, w7r1] := by
  have hlt1 : ("2020-01-01T00:00:00" : String) < "2021-01-01T00:00:00" := by
    rw [String.lt_iff_toList_lt]
    decide
  have hlt2 : ("2021-01-01T00:00:00" : String) < "2022-01-01T00:00:00" := by
    rw [String.lt_iff_toList_lt]
    decide
  exact ⟨rfl, list_newest_first.1 wStore none none none none 100 [wRec] rfl,
    rfl, rfl, rfl, hlt1, hlt2, by decide,
    list_newest_first.2 "p1" "p2" "p3" w7r1 w7r2 w7r3 _ _ _ 100 rfl rfl rfl
      hlt1 hlt2 (by decide)⟩

theorem bump_notMem (m : List (String × Nat)) (k : String)
    (h : assocGet m k = none) : bump m k = m := by
  induction m with
  | nil => rfl
  | cons e rest ih =>
      obtain ⟨k', n⟩ := e
      by_cases hk : k' = k
      · rw [assocGet_cons, if_pos hk] at h
        exact Option.noConfusion h
      · rw [assocGet_cons, if_neg hk] at h
        rw [bump, if_neg hk, ih h]

theorem assocGet_bump_self (m : List (String × Nat)) (k : String) (n : Nat)
    (h : assocGet m k = some n) : assocGet (bump m k) k = some (n + 1) := by
  induction m with
  | nil => exact Option.noConfusion h
  | cons e rest ih =>
      obtain ⟨k', n'⟩ := e
      by_cases hk : k' = k
      · rw [assocGet_cons, if_pos hk] at h
        cases h
        rw [bump, if_pos hk, assocGet_cons, if_pos hk]
      · rw [assocGet_cons, if_neg hk] at h
        rw [bump, if_neg hk, assocGet_cons, if_neg hk]
        exact ih h

theorem assocGet_bump_ne (m : List (String × Nat)) (k k' : String)
    (h : k ≠ k') : assocGet (bump m k) k' = assocGet m k' := by
  induction m with
  | nil => rfl
  | cons e rest ih =>
      obtain ⟨k0, n0⟩ := e
      by_cases hk : k0 = k
      · subst hk
        rw [bump, if_pos rfl, assocGet_cons, assocGet_cons, if_neg h, if_neg h]
      · rw [bump, if_neg hk, assocGet_cons, assocGet_cons]
        by_cases hk' : k0 = k'
        · rw [if_pos hk', if_pos hk']
        · rw [if_neg hk', if_neg hk', ih]

theorem isSome_bump (m : List (String × Nat)) (k k' : String) :
    (assocGet (bump m k) k').isSome = (assocGet m k').isSome := by
  by_cases h : k = k'
  · subst h
    cases hm : assocGet m k with
    | none => rw [bump_notMem m k hm, hm]
    | some n =>
        rw [assocGet_bump_self m k n hm]
        rfl
  · rw [assocGet_bump_ne m k k' h]

/-- One record's effect on the counters, spelled out fieldwise. -/
theorem statOne_eq (t : String) (a : Stats) (r : Rec) :
    statOne t a r =
      { total := a.total + 1
        by_type := bump a.by_type t
        by_status :=
          match (assocGet r "status").getD (.str "new") with
          | Val.str k =>
              if (assocGet a.by_status k).isSome then bump a.by_status k
              else a.by_status
          | _ => a.by_status
        by_priority :=
          if hashableStatus r then
            match (assocGet r "priority").getD (.str "medium") with
            | Val.str k =>
                if (assocGet a.by_priority k).isSome then bump a.by_priority k
                else a.by_priority
            | _ => a.by_priority
          else a.by_priority } := by
  rw [statOne, hashableStatus]
  cases hs : (assocGet r "status").getD (.str "new") <;>
    simp only [countInto] <;>
    cases hp : (assocGet r "priority").getD (.str "medium") <;>
      simp only [countInto] <;> rfl

theorem condBumpFold_cons {β : Type} (f : β → Option String) (e : β)
    (rest : List β) (m : List (String × Nat)) :
    condBumpFold f (e :: rest) m =
      condBumpFold f rest
        (match f e with
         | some k => if (assocGet m k).isSome then bump m k else m
         | none => m) := rfl

theorem condBumpFold_some {β : Type} (f : β → Option String) (l : List β)
    (m : List (String × Nat)) (k : String) (n : Nat)
    (h : assocGet m k = some n) :
    assocGet (condBumpFold f l m) k =
      some (n + l.countP (fun e => f e == some k)) := by
  induction l generalizing m n with
  | nil => simpa [condBumpFold] using h
  | cons e rest ih =>
      rw [condBumpFold_cons, List.countP_cons]
      cases hf : f e with
      | none =>
          simp only
          rw [ih m n h]
          simp
      | some k' =>
          simp only
          by_cases hk : k' = k
          · subst hk
            rw [if_pos (by rw [h]; rfl)]
            rw [ih (bump m k') (n + 1) (assocGet_bump_self m k' n h)]
            simp only [Option.some.injEq]
            simp
            omega
          · by_cases hm : (assocGet m k').isSome
            · rw [if_pos hm]
              rw [ih (bump m k') n (by rw [assocGet_bump_ne _ _ _ hk]; exact h)]
              simp only [Option.some.injEq]
              simp [hk]
            · rw [if_neg hm]
              rw [ih m n h]
              simp only [Option.some.injEq]
              simp [hk]

theorem condBumpFold_isSome {β : Type} (f : β → Option String) (l : List β)
    (m : List (String × Nat)) (k : String) :
    (assocGet (condBumpFold f l m) k).isSome = (assocGet m k).isSome := by
  induction l generalizing m with
  | nil => rfl
  | cons e rest ih =>
      rw [condBumpFold_cons]
      cases hf : f e with
      | none => exact ih m
      | some k' =>
          simp only
          by_cases hm : (assocGet m k').isSome
          · rw [if_pos hm, ih (bump m k'), isSome_bump]
          · rw [if_neg hm]
            exact ih m

theorem assocGet_initCounters (ks : List String) (k : String) :
    assocGet (initCounters ks) k = if k ∈ ks then some 0 else none := by
  induction ks with
  | nil => simp [initCounters]
  | cons a rest ih =>
      rw [initCounters, List.map_cons, assocGet_cons]
      by_cases ha : a = k
      · subst ha
        simp
      · rw [if_neg ha, show initCounters rest = List.map _ rest from rfl] at *
        rw [ih]
        simp [Ne.symm ha, List.mem_cons]

theorem get_feedback_stats_eq (s : Store) :
    get_feedback_stats s = statsFold s feedbackTypes
      { total := 0, by_type := initCounters feedbackTypes,
        by_status := initCounters feedbackStatuses,
        by_priority := initCounters feedbackPriorities } := rfl

theorem foldRecs_total (t : String) (l : List (String × Rec)) (a : Stats) :
    (l.foldl (fun a e => statOne t a e.2) a).total = a.total + l.length := by
  induction l generalizing a with
  | nil => simp
  | cons e rest ih =>
      rw [List.foldl_cons, ih, statOne_eq]
      simp
      omega

theorem foldRecs_by_type_some (t : String) (l : List (String × Rec)) (a : Stats)
    (k : String) (n : Nat) (h : assocGet a.by_type k = some n) :
    assocGet (l.foldl (fun a e => statOne t a e.2) a).by_type k =
      some (n + if t = k then l.length else 0) := by
  induction l generalizing a n with
  | nil => simpa using h
  | cons e rest ih =>
      rw [List.foldl_cons]
      by_cases hk : t = k
      · subst hk
        have h1 : assocGet (statOne t a e.2).by_type t = some (n + 1) := by
          rw [statOne_eq]
          exact assocGet_bump_self _ _ _ h
        rw [ih _ _ h1]
        simp only [Option.some.injEq, List.length_cons, eq_self_iff_true, if_true]
        omega
      · have h1 : assocGet (statOne t a e.2).by_type k = some n := by
          rw [statOne_eq]
          exact (assocGet_bump_ne _ _ _ hk).trans h
        rw [ih _ _ h1]
        simp only [if_neg hk]

theorem foldRecs_by_type_isSome (t : String) (l : List (String × Rec)) (a : Stats)
    (k : String) :
    (assocGet (l.foldl (fun a e => statOne t a e.2) a).by_type k).isSome =
      (assocGet a.by_type k).isSome := by
  induction l generalizing a with
  | nil => rfl
  | cons e rest ih =>
      rw [List.foldl_cons, ih, statOne_eq]
      exact isSome_bump _ _ _

theorem foldRecs_by_status (t : String) (l : List (String × Rec)) (a : Stats) :
    (l.foldl (fun a e => statOne t a e.2) a).by_status =
      condBumpFold (fun e => statusKey? e.2) l a.by_status := by
  induction l generalizing a with
  | nil => rfl
  | cons e rest ih =>
      rw [List.foldl_cons, condBumpFold, List.foldl_cons, ih]
      rw [show (rest.foldl _ _) = condBumpFold (fun e => statusKey? e.2) rest _
        from rfl]
      congr 1
      rw [statOne_eq, statusKey?]
      cases (assocGet e.2 "status").getD (.str "new") <;> rfl

theorem foldRecs_by_priority (t : String) (l : List (String × Rec)) (a : Stats) :
    (l.foldl (fun a e => statOne t a e.2) a).by_priority =
      condBumpFold (fun e => prioKey? e.2) l a.by_priority := by
  induction l generalizing a with
  | nil => rfl
  | cons e rest ih =>
      rw [List.foldl_cons, condBumpFold, List.foldl_cons, ih]
      rw [show (rest.foldl _ _) = condBumpFold (fun e => prioKey? e.2) rest _
        from rfl]
      congr 1
      rw [statOne_eq, prioKey?]
      by_cases hh : hashableStatus e.2
      · rw [if_pos hh, if_pos hh]
        cases (assocGet e.2 "priority").getD (.str "medium") <;> rfl
      · rw [if_neg hh, if_neg hh]

theorem condBumpFold_append {β : Type} (f : β → Option String) (l1 l2 : List β)
    (m : List (String × Nat)) :
    condBumpFold f (l1 ++ l2) m = condBumpFold f l2 (condBumpFold f l1 m) := by
  rw [condBumpFold, condBumpFold, condBumpFold, List.foldl_append]

theorem statsFold_total (s : Store) (dirs : List String) (a : Stats) :
    (statsFold s dirs a).total =
      a.total + (dirs.map (fun t => (s.part t).length)).sum := by
  induction dirs generalizing a with
  | nil => simp [statsFold]
  | cons d ds ih =>
      rw [statsFold, List.foldl_cons,
        show List.foldl (fun a t => partFold s t a) _ ds = statsFold s ds _ from rfl,
        ih, partFold, foldRecs_total]
      simp
      omega

theorem statsFold_by_type_some (s : Store) (dirs : List String) (a : Stats)
    (k : String) (n : Nat) (h : assocGet a.by_type k = some n) :
    assocGet (statsFold s dirs a).by_type k =
      some (n + ((dirs.filter (fun t => t = k)).map
        (fun t => (s.part t).length)).sum) := by
  induction dirs generalizing a n with
  | nil => simpa [statsFold] using h
  | cons d ds ih =>
      rw [statsFold, List.foldl_cons,
        show List.foldl (fun a t => partFold s t a) _ ds = statsFold s ds _ from rfl]
      have h1 : assocGet (partFold s d a).by_type k =
          some (n + if d = k then (s.part d).length else 0) :=
        foldRecs_by_type_some d (s.part d) a k n h
      rw [ih _ _ h1]
      by_cases hd : d = k
      · simp only [List.filter_cons, hd, decide_True, if_true, List.map_cons,
          List.sum_cons, eq_self_iff_true, Option.some.injEq]
        omega
      · simp only [List.filter_cons, decide_eq_true_eq, hd, if_false,
          if_neg hd, Option.some.injEq]
        omega

theorem statsFold_by_type_isSome (s : Store) (dirs : List String) (a : Stats)
    (k : String) :
    (assocGet (statsFold s dirs a).by_type k).isSome =
      (assocGet a.by_type k).isSome := by
  induction dirs generalizing a with
  | nil => rfl
  | cons d ds ih =>
      rw [statsFold, List.foldl_cons,
        show List.foldl (fun a t => partFold s t a) _ ds = statsFold s ds _ from rfl,
        ih, partFold, foldRecs_by_type_isSome]

theorem statsFold_by_status (s : Store) (dirs : List String) (a : Stats) :
    (statsFold s dirs a).by_status =
      condBumpFold (fun e => statusKey? e.2) (dirs.flatMap (fun t => s.part t))
        a.by_status := by
  induction dirs generalizing a with
  | nil => rfl
  | cons d ds ih =>
      rw [statsFold, List.foldl_cons,
        show List.foldl (fun a t => partFold s t a) _ ds = statsFold s ds _ from rfl,
        ih, List.flatMap_cons, condBumpFold_append, partFold, foldRecs_by_status]

theorem statsFold_by_priority (s : Store) (dirs : List String) (a : Stats) :
    (statsFold s dirs a).by_priority =
      condBumpFold (fun e => prioKey? e.2) (dirs.flatMap (fun t => s.part t))
        a.by_priority := by
  induction dirs generalizing a with
  | nil => rfl
  | cons d ds ih =>
      rw [statsFold, List.foldl_cons,
        show List.foldl (fun a t => partFold s t a) _ ds = statsFold s ds _ from rfl,
        ih, List.flatMap_cons, condBumpFold_append, partFold, foldRecs_by_priority]

theorem statusKey_beq (r : Rec) (k : String) :
    (statusKey? r == some k) =
      ((assocGet r "status").getD (.str "new")).isStr k := by
  rw [statusKey?]
  cases (assocGet r "status").getD (.str "new") <;> rfl

theorem prioKey_beq (r : Rec) (k : String) :
    (prioKey? r == some k) =
      (((assocGet r "priority").getD (.str "medium")).isStr k &&
        hashableStatus r) := by
  rw [prioKey?]
  by_cases hh : hashableStatus r
  · rw [if_pos hh, hh, Bool.and_true]
    cases (assocGet r "priority").getD (.str "medium") <;> rfl
  · rw [if_neg hh, Bool.eq_false_iff.mpr hh, Bool.and_false]
    rfl

/-- C8: stats holds a counter for exactly the members of each closed set;
`total` counts every stored record once, the type counter of each
partition counts exactly its records, the status breakdown counts a record
at its (defaulted) status only when that is a member of the closed set,
and the priority breakdown likewise (a record whose status value is
unhashable is abandoned before its priority is counted); out-of-set values
reach no breakdown counter but still count toward `total`; on the empty
store every counter is zero. -/
theorem stats_counts (s : Store) :
    ((get_feedback_stats s).total = (allEntries s).length) ∧
    (∀ k, (assocGet (get_feedback_stats s).by_type k).isSome ↔
      k ∈ feedbackTypes) ∧
    (∀ t ∈ feedbackTypes,
      assocGet (get_feedback_stats s).by_type t = some (s.part t).length) ∧
    (∀ k, (assocGet (get_feedback_stats s).by_status k).isSome ↔
      k ∈ feedbackStatuses) ∧
    (∀ k ∈ feedbackStatuses,
      assocGet (get_feedback_stats s).by_status k =
        some ((allEntries s).countP
          (fun e => ((assocGet e.2 "status").getD (.str "new")).isStr k))) ∧
    (∀ k, (assocGet (get_feedback_stats s).by_priority k).isSome ↔
      k ∈ feedbackPriorities) ∧
    (∀ k ∈ feedbackPriorities,
      assocGet (get_feedback_stats s).by_priority k =
        some ((allEntries s).countP
          (fun e => ((assocGet e.2 "priority").getD (.str "medium")).isStr k &&
            hashableStatus e.2))) ∧
    get_feedback_stats emptyStore =
      { total := 0, by_type := initCounters feedbackTypes,
        by_status := initCounters feedbackStatuses,
        by_priority := initCounters feedbackPriorities } := by
  refine ⟨?_, ?_, ?_, ?_, ?_, ?_, ?_, rfl⟩
  · rw [get_feedback_stats_eq, statsFold_total, allEntries, List.length_flatMap]
    rw [show (List.map (fun t => (s.part t).length) feedbackTypes).sum =
      (List.map (List.length ∘ fun t => s.part t) feedbackTypes).sum from rfl]
    simp
  · intro k
    rw [get_feedback_stats_eq, statsFold_by_type_isSome, assocGet_initCounters]
    by_cases hk : k ∈ feedbackTypes <;> simp [hk]
  · intro t ht
    rw [get_feedback_stats_eq]
    rw [statsFold_by_type_some s feedbackTypes _ t 0
      (by rw [assocGet_initCounters, if_pos ht])]
    congr 1
    fin_cases ht <;> simp [feedbackTypes]
  · intro k
    rw [get_feedback_stats_eq, statsFold_by_status, condBumpFold_isSome,
      assocGet_initCounters]
    by_cases hk : k ∈ feedbackStatuses <;> simp [hk]
  · intro k hk
    rw [get_feedback_stats_eq, statsFold_by_status]
    rw [condBumpFold_some _ _ _ k 0 (by rw [assocGet_initCounters, if_pos hk])]
    rw [show (feedbackTypes.flatMap fun t => s.part t) = allEntries s from rfl]
    simp only [statusKey_beq, Nat.zero_add]
  · intro k
    rw [get_feedback_stats_eq, statsFold_by_priority, condBumpFold_isSome,
      assocGet_initCounters]
    by_cases hk : k ∈ feedbackPriorities <;> simp [hk]
  · intro k hk
    rw [get_feedback_stats_eq, statsFold_by_priority]
    rw [condBumpFold_some _ _ _ k 0 (by rw [assocGet_initCounters, if_pos hk])]
    rw [show (feedbackTypes.flatMap fun t => s.part t) = allEntries s from rfl]
    simp only [prioKey_beq, Nat.zero_add]

theorem get_feedback_none_iff (s : Store) (fid : String) :
    get_feedback s fid = none ↔
      ∀ t ∈ feedbackTypes, assocGet (s.part t) fid = none := by
  rw [get_feedback, List.findSome?_eq_none_iff]

theorem get_feedback_isSome_of (s : Store) (fid : String) (t : String)
    (ht : t ∈ feedbackTypes) (h : (assocGet (s.part t) fid).isSome) :
    (get_feedback s fid).isSome := by
  cases hg : get_feedback s fid with
  | some r => rfl
  | none =>
      rw [(get_feedback_none_iff s fid).mp hg t ht] at h
      exact Bool.noConfusion h

theorem mem_feedbackTypes_ne_empty (t : String) (ht : t ∈ feedbackTypes) :
    t ≠ "" := by
  fin_cases ht <;> decide

/-- One import step on a well-typed fresh record: the record is written
under its type and counted. -/
theorem import_one_write (A : Store) (n : Nat) (r : Rec) (i t : String)
    (hid : assocGet r "id" = some (Val.str i)) (hine : i ≠ "")
    (hty : assocGet r "type" = some (Val.str t)) (htm : t ∈ feedbackTypes)
    (hfresh : get_feedback A i = none) :
    import_one A n r = (n + 1, writeFile A t i r) := by
  rw [import_one, hid, hty]
  simp only
  rw [if_neg (by simp [hine, mem_feedbackTypes_ne_empty t htm])]
  rw [if_neg (by rw [hfresh]; simp), if_pos htm]

/-- One import step skips a record whose id is already present. -/
theorem import_one_skip (A : Store) (n : Nat) (r : Rec)
    (hp : (get_feedback A (recKey r)).isSome) :
    import_one A n r = (n, A) := by
  rw [import_one]
  cases hid : assocGet r "id" with
  | none => rfl
  | some v =>
      cases v with
      | str i =>
          cases hty : assocGet r "type" with
          | none => rfl
          | some w =>
              cases w with
              | str t =>
                  simp only
                  by_cases he : i = "" ∨ t = ""
                  · rw [if_pos (by simpa using he)]
                  · rw [if_neg (by simpa using he)]
                    rw [if_pos (by rw [show i = recKey r by rw [recKey, hid]]; exact hp)]
              | null => rfl
              | bool b => rfl
              | nat m => rfl
              | list vs => rfl
              | dict kvs => rfl
      | null => rfl
      | bool b => rfl
      | nat m => rfl
      | list vs => rfl
      | dict kvs => rfl

/-- The import fold over fresh, well-typed records with distinct ids:
every record is imported, each appended at the end of its type's
partition. -/
theorem import_fold (L : List Rec) (n0 : Nat) (A : Store)
    (hwf : ∀ r ∈ L, ∃ i t, assocGet r "id" = some (Val.str i) ∧ i ≠ "" ∧
      assocGet r "type" = some (Val.str t) ∧ t ∈ feedbackTypes)
    (hnd : (L.map recKey).Nodup)
    (hfresh : ∀ r ∈ L, get_feedback A (recKey r) = none) :
    (L.foldl (fun acc r => import_one acc.2 acc.1 r) (n0, A)).1 = n0 + L.length ∧
    ∀ t, (L.foldl (fun acc r => import_one acc.2 acc.1 r) (n0, A)).2.part t =
      A.part t ++ L.filterMap (entryFor t) := by
  induction L generalizing n0 A with
  | nil => simp
  | cons r rest ih =>
      obtain ⟨i, t0, hid, hine, hty, htm⟩ := hwf r (List.mem_cons_self r rest)
      have hkey : recKey r = i := by rw [recKey, hid]
      have hfr : get_feedback A i = none := by
        rw [← hkey]
        exact hfresh r (List.mem_cons_self r rest)
      rw [List.foldl_cons, import_one_write A n0 r i t0 hid hine hty htm hfr]
      simp only [List.map_cons, List.nodup_cons] at hnd
      have hfresh' : ∀ r' ∈ rest, get_feedback (writeFile A t0 i r) (recKey r') = none := by
        intro r' hr'
        have hne : recKey r' ≠ i := by
          rw [← hkey]
          intro hc
          exact hnd.1 (hc ▸ List.mem_map_of_mem recKey hr')
        rw [get_feedback_none_iff]
        intro t ht
        have h0 := (get_feedback_none_iff A (recKey r')).mp
          (hfresh r' (List.mem_cons_of_mem r hr')) t ht
        by_cases htt : t = t0
        · subst htt
          rw [writeFile, part_setPart_self _ _ _ htm,
            assocGet_assocSet_ne _ _ _ _ (fun h => hne h.symm)]
          exact h0
        · rw [writeFile, part_setPart_ne _ _ _ _ htm (fun h => htt h.symm)]
          exact h0
      obtain ⟨ihn, ihp⟩ := ih (n0 + 1) (writeFile A t0 i r)
        (fun r' hr' => hwf r' (List.mem_cons_of_mem r hr')) hnd.2 hfresh'
      refine ⟨by rw [ihn]; simp; omega, ?_⟩
      intro t
      rw [ihp t, List.filterMap_cons]
      have hent : entryFor t r = if t0 = t then some (i, r) else none := by
        rw [entryFor, hid, hty]
      by_cases htt : t0 = t
      · subst htt
        rw [hent, if_pos rfl, writeFile, part_setPart_self _ _ _ htm]
        rw [assocSet_eq_append _ _ _
          ((get_feedback_none_iff A i).mp hfr t0 htm)]
        simp
      · rw [hent, if_neg htt, writeFile, part_setPart_ne _ _ _ _ htm htt]

/-- The import fold skips every record whose id is already present,
counts nothing and changes nothing. -/
theorem import_fold_skip (L : List Rec) (n0 : Nat) (A : Store)
    (hp : ∀ r ∈ L, (get_feedback A (recKey r)).isSome) :
    L.foldl (fun acc r => import_one acc.2 acc.1 r) (n0, A) = (n0, A) := by
  induction L with
  | nil => rfl
  | cons r rest ih =>
      rw [List.foldl_cons, import_one_skip A n0 r (hp r (List.mem_cons_self r rest))]
      exact ih (fun r' hr' => hp r' (List.mem_cons_of_mem r hr'))

theorem part_empty (t : String) : emptyStore.part t = [] := by
  rw [Store.part]
  split_ifs <;> rfl

theorem mem_allRecs_iff (s : Store) (r : Rec) :
    r ∈ allRecs s ↔ ∃ t ∈ feedbackTypes, ∃ e ∈ s.part t, e.2 = r := by
  rw [allRecs, allEntries]
  simp only [List.mem_map, List.mem_flatMap]
  constructor
  · rintro ⟨e, ⟨t, ht, he⟩, rfl⟩
    exact ⟨t, ht, e, he, rfl⟩
  · rintro ⟨t, ht, e, he, rfl⟩
    exact ⟨e, ⟨t, ht, he⟩, rfl⟩

/-- With no filters and a limit at or above the store size, list returns
exactly the stored records (in some order). -/
theorem list_feedback_all (s : Store) (limit : Nat)
    (hsk : ∀ r ∈ allRecs s, (sortKey? r).isSome)
    (hl : 1 ≤ limit) (hcount : totalCount s ≤ limit) :
    ∃ L, list_feedback s none none none none limit = some L ∧
      L.Perm (allRecs s) := by
  have hlen : (allRecs s).length ≤ limit := by
    rw [allRecs, List.length_map]
    exact hcount
  have hscan : scanDirs s (passesFilter none none none) limit []
      (searchDirs none) = allRecs s := by
    rw [searchDirs, scanDirs_eq s _ limit [] feedbackTypes hl (by simpa using hl)]
    have h1 : (feedbackTypes.flatMap fun d =>
        ((s.part d).map Prod.snd).filter (passesFilter none none none)) =
        allRecs s := by
      rw [allRecs, allEntries, List.map_flatMap]
      congr 1
      funext d
      rw [List.filter_eq_self.mpr (fun a _ => passesFilter_none a)]
    rw [h1, List.nil_append]
    simp only [List.length_nil, Nat.sub_zero]
    exact List.take_of_length_le hlen
  rw [list_feedback, hscan]
  have hcond : ((allRecs s).all fun r => (sortKey? r).isSome) = true :=
    List.all_eq_true.mpr (fun r hr => hsk r hr)
  rw [hcond, Bool.or_true, if_pos rfl]
  refine ⟨_, rfl, ?_⟩
  have hsort := List.perm_insertionSort newestFirst (allRecs s)
  rw [List.take_of_length_le (by rw [hsort.length_eq]; exact hlen)]
  exact hsort

/-- Re-filing every stored record by its own id and type field rebuilds
each partition exactly. -/
theorem filterMap_entryFor (s : Store) (hwf : WellFormedStore s) (t : String) :
    (allRecs s).filterMap (entryFor t) = s.part t := by
  have aux : ∀ (t' : String), t' ∈ feedbackTypes →
      ∀ (l : List (String × Rec)),
      (∀ e ∈ l, assocGet e.2 "id" = some (Val.str e.1) ∧
        assocGet e.2 "type" = some (Val.str t')) →
      (l.map Prod.snd).filterMap (entryFor t) = if t' = t then l else [] := by
    intro t' ht' l hl
    induction l with
    | nil => simp
    | cons e rest ih =>
        obtain ⟨hid, hty⟩ := hl e (List.mem_cons_self e rest)
        have hrest := ih (fun e' he' => hl e' (List.mem_cons_of_mem e he'))
        rw [List.map_cons, List.filterMap_cons]
        have hent : entryFor t e.2 = if t' = t then some (e.1, e.2) else none := by
          rw [entryFor, hid, hty]
        by_cases htt : t' = t
        · rw [hent, if_pos htt, hrest, if_pos htt, if_pos htt]
        · rw [hent, if_neg htt, hrest, if_neg htt, if_neg htt]
  have hw := hwf.1
  have h1 : ∀ t' ∈ feedbackTypes,
      ((s.part t').map Prod.snd).filterMap (entryFor t) =
        if t' = t then s.part t' else [] :=
    fun t' ht' => aux t' ht' (s.part t')
      (fun e he => ⟨(hw t' ht' e he).2.1, (hw t' ht' e he).2.2.1⟩)
  rw [allRecs, allEntries, List.map_flatMap, List.filterMap_flatMap]
  simp only [feedbackTypes, List.flatMap_cons, List.flatMap_nil, List.append_nil]
  rw [h1 "issue" (by decide), h1 "improvement" (by decide), h1 "question" (by decide),
    h1 "compliance" (by decide), h1 "other" (by decide)]
  by_cases hmem : t ∈ feedbackTypes
  · fin_cases hmem <;> simp [Store.part]
  · simp only [feedbackTypes, List.mem_cons, List.not_mem_nil, or_false] at hmem
    push_neg at hmem
    obtain ⟨n1, n2, n3, n4, n5⟩ := hmem
    rw [if_neg (fun h => n1 h.symm), if_neg (fun h => n2 h.symm),
      if_neg (fun h => n3 h.symm), if_neg (fun h => n4 h.symm),
      if_neg (fun h => n5 h.symm)]
    rw [Store.part, if_neg n1, if_neg n2, if_neg n3, if_neg n4, if_neg n5]
    rfl

/-- C4 amended: for every well-formed store with at most 1000 records
(export's snapshot limit), export followed by import into an empty store
reproduces an identical set of records — partition by partition the same
entries, id for id and field for field — and running import a second time
against the same document imports zero records and leaves the store
untouched. -/
theorem export_import_roundtrip (s : Store) (now : String)
    (hwf : WellFormedStore s) (hcount : totalCount s ≤ 1000) :
    ∃ doc, export_feedback s none none now = some doc ∧
      storeEquiv (import_feedback emptyStore doc).2 s ∧
      import_feedback (import_feedback emptyStore doc).2 doc =
        (0, (import_feedback emptyStore doc).2) := by
  have hsk : ∀ r ∈ allRecs s, (sortKey? r).isSome := by
    intro r hr
    obtain ⟨t, ht, e, he, rfl⟩ := (mem_allRecs_iff s r).mp hr
    exact (hwf.1 t ht e he).2.2.2
  obtain ⟨L, hlist, hperm⟩ := list_feedback_all s 1000 hsk (by omega) hcount
  have hexp : export_feedback s none none now = some ⟨now, L.length, L⟩ := by
    rw [export_feedback, hlist]
  have hwfL : ∀ r ∈ L, ∃ i t, assocGet r "id" = some (Val.str i) ∧ i ≠ "" ∧
      assocGet r "type" = some (Val.str t) ∧ t ∈ feedbackTypes := by
    intro r hr
    obtain ⟨t, ht, e, he, rfl⟩ := (mem_allRecs_iff s r).mp (hperm.mem_iff.mp hr)
    obtain ⟨hne, hid, hty, -⟩ := hwf.1 t ht e he
    exact ⟨e.1, t, hid, hne, hty, ht⟩
  have hmapkey : (allRecs s).map recKey = (allEntries s).map Prod.fst := by
    rw [allRecs, List.map_map]
    refine List.map_congr_left ?_
    intro e he
    obtain ⟨t, ht, he'⟩ := List.mem_flatMap.mp he
    show recKey e.2 = e.1
    rw [recKey, (hwf.1 t ht e he').2.1]
  have hndL : (L.map recKey).Nodup := by
    rw [(hperm.map recKey).nodup_iff, hmapkey]
    exact hwf.2
  obtain ⟨h1n, h1p⟩ := import_fold L 0 emptyStore hwfL hndL
    (fun r hr => by
      rw [get_feedback_none_iff]
      intro t ht
      rw [part_empty]
      rfl)
  have hS1 : import_feedback emptyStore ⟨now, L.length, L⟩ =
      L.foldl (fun acc r => import_one acc.2 acc.1 r) (0, emptyStore) := rfl
  refine ⟨⟨now, L.length, L⟩, hexp, ?_, ?_⟩
  · intro t
    rw [hS1, h1p t, part_empty, List.nil_append]
    exact (hperm.filterMap (entryFor t)).trans
      (by rw [filterMap_entryFor s hwf t])
  · have hpresent : ∀ r ∈ L,
        (get_feedback (L.foldl (fun acc r => import_one acc.2 acc.1 r)
          (0, emptyStore)).2 (recKey r)).isSome := by
      intro r hr
      obtain ⟨i, t, hid, hine, hty, htm⟩ := hwfL r hr
      have hkey : recKey r = i := by rw [recKey, hid]
      have hmem : (i, r) ∈ (L.foldl (fun acc r => import_one acc.2 acc.1 r)
          (0, emptyStore)).2.part t := by
        rw [h1p t, part_empty, List.nil_append, List.mem_filterMap]
        exact ⟨r, hr, by rw [entryFor, hid, hty]; simp⟩
      rw [hkey]
      exact get_feedback_isSome_of _ i t htm (assocGet_isSome_of_mem hmem)
    rw [hS1]
    show List.foldl (fun acc r => import_one acc.2 acc.1 r) _ L = _
    exact import_fold_skip L 0 _ hpresent

theorem export_import_roundtrip_witness :
    WellFormedStore wStore ∧ totalCount wStore ≤ 1000 ∧
    (∃ doc, export_feedback wStore none none "2024-01-01T00:00:00" = some doc ∧
      storeEquiv (import_feedback emptyStore doc).2 wStore ∧
      import_feedback (import_feedback emptyStore doc).2 doc =
        (0, (import_feedback emptyStore doc).2)) := by
  have hwf : WellFormedStore wStore := by
    constructor
    · intro t ht e he
      fin_cases ht
      · rw [show wStore.part "issue" = [("a1", wRec)] from rfl] at he
        rcases List.mem_singleton.mp he with rfl
        exact ⟨by decide, rfl, rfl, rfl⟩
      · rw [show wStore.part "improvement" = [] from rfl] at he
        exact absurd he (List.not_mem_nil e)
      · rw [show wStore.part "question" = [] from rfl] at he
        exact absurd he (List.not_mem_nil e)
      · rw [show wStore.part "compliance" = [] from rfl] at he
        exact absurd he (List.not_mem_nil e)
      · rw [show wStore.part "other" = [] from rfl] at he
        exact absurd he (List.not_mem_nil e)
    · rw [show (allEntries wStore).map Prod.fst = ["a1"] from rfl]
      exact List.nodup_singleton "a1"
  exact ⟨hwf, by decide,
    export_import_roundtrip wStore "2024-01-01T00:00:00" hwf (by decide)⟩

theorem cxId_injective : Function.Injective cxId := by
  intro i j h
  have h1 := congrArg (fun s => s.data.length) h
  simpa [cxId] using h1

theorem cxId_ne_empty (i : Nat) : cxId i ≠ "" := by
  intro h
  have h1 := congrArg (fun s => s.data.length) h
  simp [cxId] at h1

theorem assocSet_length_le {α : Type} (l : List (String × α)) (k : String)
    (v : α) : (assocSet l k v).length ≤ l.length + 1 := by
  induction l with
  | nil => simp [assocSet]
  | cons e rest ih =>
      obtain ⟨k', v'⟩ := e
      rw [assocSet]
      by_cases hk : k' = k
      · rw [if_pos hk]
        simp
      · rw [if_neg hk]
        simpa using ih

theorem totalCount_eq (s : Store) :
    totalCount s = s.issue.length + (s.improvement.length + (s.question.length +
      (s.compliance.length + s.other.length))) := by
  simp [totalCount, allEntries, feedbackTypes, Store.part]

theorem totalCount_writeFile_le (A : Store) (t : String) (i : String) (r : Rec)
    (ht : t ∈ feedbackTypes) :
    totalCount (writeFile A t i r) ≤ totalCount A + 1 := by
  fin_cases ht <;>
    · rw [totalCount_eq, totalCount_eq]
      simp [writeFile, Store.part, Store.setPart]
      have h1 := assocSet_length_le A.issue i r
      have h2 := assocSet_length_le A.improvement i r
      have h3 := assocSet_length_le A.question i r
      have h4 := assocSet_length_le A.compliance i r
      have h5 := assocSet_length_le A.other i r
      omega

theorem import_one_snd (A : Store) (n : Nat) (r : Rec) :
    (import_one A n r).2 = A ∨
      ∃ t i, t ∈ feedbackTypes ∧ (import_one A n r).2 = writeFile A t i r := by
  rw [import_one]
  cases hid : assocGet r "id" with
  | none => exact Or.inl rfl
  | some v =>
      cases v with
      | str i =>
          cases hty : assocGet r "type" with
          | none => exact Or.inl rfl
          | some w =>
              cases w with
              | str t =>
                  simp only
                  by_cases he : (decide (i = "") || decide (t = "")) = true
                  · rw [if_pos he]
                    exact Or.inl rfl
                  · rw [if_neg he]
                    by_cases hg : (get_feedback A i).isSome
                    · rw [if_pos hg]
                      exact Or.inl rfl
                    · rw [if_neg hg]
                      by_cases htm : t ∈ feedbackTypes
                      · rw [if_pos htm]
                        exact Or.inr ⟨t, i, htm, rfl⟩
                      · rw [if_neg htm]
                        exact Or.inl rfl
              | null => exact Or.inl rfl
              | bool b => exact Or.inl rfl
              | nat m => exact Or.inl rfl
              | list vs => exact Or.inl rfl
              | dict kvs => exact Or.inl rfl
      | null => exact Or.inl rfl
      | bool b => exact Or.inl rfl
      | nat m => exact Or.inl rfl
      | list vs => exact Or.inl rfl
      | dict kvs => exact Or.inl rfl

theorem import_fold_totalCount_le (L : List Rec) (n0 : Nat) (A : Store) :
    totalCount (L.foldl (fun acc r => import_one acc.2 acc.1 r) (n0, A)).2 ≤
      totalCount A + L.length := by
  induction L generalizing n0 A with
  | nil => simp
  | cons r rest ih =>
      rw [List.foldl_cons]
      rcases hio : import_one A n0 r with ⟨a, b⟩
      have hb : totalCount b ≤ totalCount A + 1 := by
        rcases import_one_snd A n0 r with h | ⟨t, i, htm, h⟩
        · rw [hio] at h
          simp only at h
          rw [h]
          omega
        · rw [hio] at h
          simp only at h
          rw [h]
          exact totalCount_writeFile_le A t i r htm
      calc totalCount (rest.foldl (fun acc r => import_one acc.2 acc.1 r) (a, b)).2 ≤
          totalCount b + rest.length := ih a b
        _ ≤ totalCount A + (r :: rest).length := by
            simp only [List.length_cons]
            omega

theorem issue_length_le_totalCount (s : Store) :
    (s.part "issue").length ≤ totalCount s := by
  rw [totalCount_eq]
  rw [show s.part "issue" = s.issue from rfl]
  omega

/-- With no filters, list returns the first `limit` records of the scan
(in some order) — the records beyond the limit are dropped. -/
theorem list_feedback_truncated (s : Store) (limit : Nat) (hl : 1 ≤ limit)
    (hsk : ∀ r ∈ (allRecs s).take limit, (sortKey? r).isSome) :
    ∃ L, list_feedback s none none none none limit = some L ∧
      L.Perm ((allRecs s).take limit) := by
  have hscan : scanDirs s (passesFilter none none none) limit []
      (searchDirs none) = (allRecs s).take limit := by
    rw [searchDirs, scanDirs_eq s _ limit [] feedbackTypes hl (by simpa using hl)]
    have h1 : (feedbackTypes.flatMap fun d =>
        ((s.part d).map Prod.snd).filter (passesFilter none none none)) =
        allRecs s := by
      rw [allRecs, allEntries, List.map_flatMap]
      congr 1
      funext d
      rw [List.filter_eq_self.mpr (fun a _ => passesFilter_none a)]
    rw [h1, List.nil_append]
    simp only [List.length_nil, Nat.sub_zero]
  rw [list_feedback, hscan]
  have hcond : (((allRecs s).take limit).all fun r => (sortKey? r).isSome) = true :=
    List.all_eq_true.mpr (fun r hr => hsk r hr)
  rw [hcond, Bool.or_true, if_pos rfl]
  refine ⟨_, rfl, ?_⟩
  have hsort := List.perm_insertionSort newestFirst ((allRecs s).take limit)
  rw [List.take_of_length_le
    (by rw [hsort.length_eq, List.length_take]; omega)]
  exact hsort

set_option maxRecDepth 8000 in
/-- C4 counterexample: a well-formed store of 1001 records.  Export
snapshots only 1000 of them (list's fixed limit), so importing the export
into an empty store does not reproduce the original set of records: the
claim fails as stated for this store state. -/
theorem export_import_roundtrip_counterexample :
    WellFormedStore cxStore ∧ totalCount cxStore = 1001 ∧
    ∃ doc, export_feedback cxStore none none "2024-01-01T00:00:00" = some doc ∧
      ¬ storeEquiv (import_feedback emptyStore doc).2 cxStore := by
  have hbig : cxStore.part "issue" =
      (List.range 1001).map (fun i => (cxId i, cxRec i)) := rfl
  have hcount : totalCount cxStore = 1001 := by
    rw [totalCount_eq]
    simp [cxStore]
  have hwf : WellFormedStore cxStore := by
    constructor
    · intro t ht e he
      fin_cases ht
      · rw [hbig] at he
        obtain ⟨i, -, rfl⟩ := List.mem_map.mp he
        exact ⟨cxId_ne_empty i, rfl, rfl, rfl⟩
      · exact absurd he (List.not_mem_nil e)
      · exact absurd he (List.not_mem_nil e)
      · exact absurd he (List.not_mem_nil e)
      · exact absurd he (List.not_mem_nil e)
    · have h1 : (allEntries cxStore).map Prod.fst = (List.range 1001).map cxId := by
        simp [allEntries, feedbackTypes, Store.part, cxStore, List.map_map]
      rw [h1]
      exact (List.nodup_range 1001).map cxId_injective
  have hall : allRecs cxStore = (List.range 1001).map (fun i => cxRec i) := by
    simp [allRecs, allEntries, feedbackTypes, Store.part, cxStore, List.map_map]
  have htake : (allRecs cxStore).take 1000 =
      (List.range 1000).map (fun i => cxRec i) := by
    rw [hall, ← List.map_take, List.take_range]
    norm_num
  have hsk : ∀ r ∈ (allRecs cxStore).take 1000, (sortKey? r).isSome := by
    intro r hr
    rw [htake] at hr
    obtain ⟨i, -, rfl⟩ := List.mem_map.mp hr
    rfl
  obtain ⟨L, hlist, hperm⟩ := list_feedback_truncated cxStore 1000 (by omega) hsk
  have hLlen : L.length = 1000 := by
    rw [hperm.length_eq, htake, List.length_map, List.length_range]
  refine ⟨hwf, hcount, ⟨"2024-01-01T00:00:00", L.length, L⟩, ?_, ?_⟩
  · rw [export_feedback, hlist]
  · intro hequiv
    have hS1 : import_feedback emptyStore
        ⟨"2024-01-01T00:00:00", L.length, L⟩ =
        L.foldl (fun acc r => import_one acc.2 acc.1 r) (0, emptyStore) := rfl
    have hle : totalCount (import_feedback emptyStore
        ⟨"2024-01-01T00:00:00", L.length, L⟩).2 ≤ 1000 := by
      rw [hS1]
      have h1 := import_fold_totalCount_le L 0 emptyStore
      rw [show totalCount emptyStore = 0 from rfl, hLlen] at h1
      omega
    have hlen1 := (hequiv "issue").length_eq
    rw [hbig, List.length_map, List.length_range] at hlen1
    have hlen2 := issue_length_le_totalCount
      (import_feedback emptyStore ⟨"2024-01-01T00:00:00", L.length, L⟩).2
    omega

end Feedback
